import Mathlib

/-!
Verification of the decision-queue engine of arbiter-zebu.

The engine stores "plans" as markdown documents with a `key: value`
front-matter block and a body of decision sections.  We embed the parser
(`src/queue/parser.ts`), the writer (`src/queue/writer.ts`) and the queue
manager (`src/queue/index.ts`) shallowly: a document is a list of lines
(`List String`), pure functions mirror the TypeScript functions line by
line, and the wall clock is passed explicitly as a `now : String`
parameter wherever the source calls `new Date().toISOString()`.

The gray-matter/js-yaml front-matter library is external to the
repository; it is modelled as a flat `key: value` codec, which is exact
for the normalised documents this engine reads and writes (scalar string
and integer values, one key per line, no nested YAML).
-/

namespace Zebu

/-! ## Character-list string primitives -/

/-- Whitespace trim of a character list (models JavaScript `String.trim`). -/
def trimL (s : List Char) : List Char :=
  ((s.dropWhile Char.isWhitespace).reverse.dropWhile Char.isWhitespace).reverse

/-- Models JavaScript `s.trim()`. -/
def trimS (s : String) : String := ⟨trimL s.data⟩

/-- Models JavaScript `s.startsWith(p)`. -/
def startsWithS (s p : String) : Bool := p.data.isPrefixOf s.data

/-- Substring occurrence test on character lists. -/
def infixOfL (pat : List Char) : List Char → Bool
  | [] => pat.isPrefixOf []
  | c :: cs => pat.isPrefixOf (c :: cs) || infixOfL pat cs

/-- Models JavaScript `s.includes(sub)`. -/
def containsSub (s sub : String) : Bool := infixOfL sub.data s.data

/-- Models JavaScript `s.slice(n)` for ASCII content. -/
def dropChars (n : Nat) (s : String) : String := ⟨s.data.drop n⟩

/-- Digit run to a natural number. -/
def digitsToNat (ds : List Char) : Nat := ds.foldl (fun a c => a * 10 + (c.toNat - 48)) 0

/-- Parse an optional-sign decimal integer; `none` on any other shape. -/
def strToInt? (s : String) : Option Int :=
  match s.data with
  | [] => none
  | '-' :: ds => if ds ≠ [] ∧ ds.all Char.isDigit then some (-(digitsToNat ds : Int)) else none
  | ds => if ds.all Char.isDigit then some ((digitsToNat ds : Int)) else none

/-- Digits of a number, most significant first, with an explicit fuel
bound so the definition is structurally recursive. -/
def natDigits : Nat → Nat → List Char → List Char
  | 0, _, acc => acc
  | _ + 1, 0, acc => acc
  | fuel + 1, n, acc => natDigits fuel (n / 10) (Char.ofNat (48 + n % 10) :: acc)

/-- Decimal rendering of a natural number (models the YAML dump of the
JavaScript numbers the writer stores). -/
def natToStr (n : Nat) : String :=
  if n = 0 then "0" else ⟨natDigits n n []⟩

/-- Join lines with newlines into one character list. -/
def joinNL (ls : List String) : List Char := List.intercalate ['\n'] (ls.map String.data)

/-- Split a character list into lines at newlines. -/
def splitNL (cs : List Char) : List String := (cs.splitOn '\n').map String.mk

/-- Take the part of a character list before the first occurrence of `pat`. -/
def takeBefore (pat : List Char) : List Char → List Char
  | [] => []
  | c :: cs => if pat.isPrefixOf (c :: cs) then [] else c :: takeBefore pat cs

/-! ## Front-matter codec (model of gray-matter on flat documents) -/

/-- Split a line at its first colon: key before, trimmed value after. -/
def breakAtColon : List Char → Option (List Char × List Char)
  | [] => none
  | c :: cs =>
    if c = ':' then some ([], cs)
    else (breakAtColon cs).map (fun p => (c :: p.1, p.2))

/-- Parse one `key: value` front-matter line. -/
def parseKV (l : String) : Option (String × String) :=
  (breakAtColon l.data).map (fun p => (⟨p.1⟩, ⟨trimL p.2⟩))

/-- Split off the lines between an opening `---` line and the next `---` line. -/
def splitAtDelim : List String → Option (List String × List String)
  | [] => none
  | l :: ls =>
    if l = "---" then some ([], ls)
    else (splitAtDelim ls).map (fun p => (l :: p.1, p.2))

/-- Front-matter region and body of a document (model of `matter(content)`).
A document that does not open with a `---` line has no front matter and is
all body, as in gray-matter. -/
def parseFMlines (content : List String) : List String × List String :=
  match content with
  | l :: rest =>
    if l = "---" then
      match splitAtDelim rest with
      | some p => p
      | none => ([], content)
    else ([], content)
  | [] => ([], [])

/-- Parsed front-matter data of a document. -/
def fmData (content : List String) : List (String × String) :=
  (parseFMlines content).1.filterMap parseKV

/-- Body of a document (lines after the front-matter block). -/
def fmBody (content : List String) : List String := (parseFMlines content).2

/-- One serialised front-matter line. -/
def kvLine (p : String × String) : String := p.1 ++ ": " ++ p.2

/-- Serialise front matter and body back to a document
(model of `matter.stringify(body, data)`). -/
def stringifyFM (data : List (String × String)) (body : List String) : List String :=
  "---" :: data.map kvLine ++ "---" :: body

/-- Key presence test (models JavaScript `key in data`). -/
def hasKey (data : List (String × String)) (k : String) : Bool :=
  data.any (fun p => p.1 = k)

/-- First binding of a key. -/
def lookupRaw (data : List (String × String)) (k : String) : Option String :=
  (data.find? (fun p => p.1 = k)).map Prod.snd

/-- Binding of a key with YAML `null` (and the empty scalar) mapped to `none`,
so that `x ?? d` chains on parsed YAML are `(lookupVal ...).getD d`. -/
def lookupVal (data : List (String × String)) (k : String) : Option String :=
  match lookupRaw data k with
  | some v => if v = "null" ∨ v = "" then none else some v
  | none => none

/-- Integer field with default (models `data.k ?? dflt` for integer scalars). -/
def getIntD (data : List (String × String)) (k : String) (dflt : Int) : Int :=
  match lookupVal data k with
  | some v => (strToInt? v).getD dflt
  | none => dflt

/-- String field with default (models `data.k ?? dflt`). -/
def getStrD (data : List (String × String)) (k : String) (dflt : String) : String :=
  (lookupVal data k).getD dflt

/-- Two-key fallback chain `data.k1 ?? data.k2 ?? dflt`. -/
def getStr2 (data : List (String × String)) (k1 k2 dflt : String) : String :=
  ((lookupVal data k1).orElse (fun _ => lookupVal data k2)).getD dflt

/-- One existing binding after the merge: it keeps its key and takes the
update's value when the update carries its key. -/
def mergeEntry (upd : List (String × String)) (p : String × String) : String × String :=
  match lookupRaw upd p.1 with
  | some v => (p.1, v)
  | none => p

/-- JavaScript object-spread merge `{...data, ...upd}`: existing keys keep
their position and take the update's value, new keys are appended in order. -/
def mergeFM (data upd : List (String × String)) : List (String × String) :=
  data.map (mergeEntry upd) ++ upd.filter (fun q => ¬ hasKey data q.1)

/-! ## Data model (src/types.ts) -/

/-- One decision within a plan (`interface Decision`).  `status`, like in the
source after `as Status`, is an unvalidated string. -/
structure Decision where
  id : String
  status : String
  answer : Option String
  answeredAt : Option String
  context : String
  options : List String
  allowCustom : Bool
deriving Repr, DecidableEq, Inhabited

/-- Plan metadata (`interface DecisionFileFrontmatter`).  Counters are
integers as in JavaScript. -/
structure Frontmatter where
  id : String
  version : Int
  agent : String
  session : String
  tag : String
  title : String
  priority : String
  status : String
  createdAt : String
  updatedAt : String
  completedAt : Option String
  total : Int
  answered : Int
  remaining : Int
  notifySession : Option String
deriving Repr, DecidableEq, Inhabited

/-- A decoded plan document (`interface DecisionFile`); `rawContent` is the
raw source text as a list of lines. -/
structure DecisionFile where
  frontmatter : Frontmatter
  context : String
  decisions : List Decision
  rawContent : List String
  filePath : String
deriving Repr, DecidableEq, Inhabited

/-! ## Regular-expression matchers used by the parser -/

/-- Drop an exact prefix. -/
def dropExact (pat : List Char) (s : List Char) : Option (List Char) :=
  if pat.isPrefixOf s then some (s.drop pat.length) else none

/-- Drop a case-insensitive exact prefix. -/
def dropExactCI : List Char → List Char → Option (List Char)
  | [], s => some s
  | _, [] => none
  | p :: ps, c :: cs => if c.toLower = p.toLower then dropExactCI ps cs else none

/-- Require and drop a nonempty whitespace run (regex `\s+`, greedy; the
following literals in the patterns below can never match whitespace, so
greedy matching agrees with the regex). -/
def dropWS1 (s : List Char) : Option (List Char) :=
  match s with
  | c :: cs => if c.isWhitespace then some ((c :: cs).dropWhile Char.isWhitespace) else none
  | [] => none

/-- Require and drop a nonempty digit run (regex `\d+`). -/
def dropDigits1 (s : List Char) : Option (List Char) :=
  match s with
  | c :: cs => if c.isDigit then some ((c :: cs).dropWhile Char.isDigit) else none
  | [] => none

/-- The strict section-split pattern `/^## Decision \d+:/` used by
`parseDecisionFile` and `updateDecisionInBody` (case sensitive, single
spaces). -/
def isHeadingStrict (l : String) : Bool :=
  match dropExact "## Decision ".data l.data with
  | some r =>
    match dropDigits1 r with
    | some r2 =>
      match r2 with
      | ':' :: _ => true
      | _ => false
    | none => false
  | none => false

/-- The section-title pattern `/^##\s+Decision\s+\d+:\s*(.+)$/i` checked on
the first line of a section by `parseDecisionSection`.  `\s*(.+)$` succeeds
exactly when anything follows the colon (regex backtracking lets `.+`
absorb whitespace). -/
def matchSectionTitle (l : String) : Bool :=
  match dropExact "##".data l.data with
  | none => false
  | some r1 =>
    match dropWS1 r1 with
    | none => false
    | some r2 =>
      match dropExactCI "Decision".data r2 with
      | none => false
      | some r3 =>
        match dropWS1 r3 with
        | none => false
        | some r4 =>
          match dropDigits1 r4 with
          | some (':' :: rest) => rest ≠ []
          | _ => false

/-- The context-title pattern `/^#\s+.+/`: a `#`, one whitespace character,
and at least one further character (backtracking makes `\s+.+` succeed on
any tail of length at least two beginning with whitespace). -/
def isHashTitle (l : String) : Bool :=
  match l.data with
  | '#' :: c :: cs => c.isWhitespace && cs ≠ []
  | _ => false

/-- The option-line pattern ``/^-\s+`([^`]+)`(?:\s*[—–-]\s*(.+))?$/``,
returning the machine key when the (already trimmed) line matches. -/
def matchOptionKey (l : String) : Option String :=
  match l.data with
  | '-' :: rest =>
    match dropWS1 rest with
    | none => none
    | some r1 =>
      match r1 with
      | '`' :: r2 =>
        let key := r2.takeWhile (· ≠ '`')
        if key = [] then none
        else
          match r2.drop key.length with
          | '`' :: r4 =>
            if r4 = [] then some ⟨key⟩
            else
              match r4.dropWhile Char.isWhitespace with
              | d :: r6 =>
                if (d = '—' ∨ d = '–' ∨ d = '-') ∧ r6 ≠ [] then some ⟨key⟩ else none
              | [] => none
          | _ => none
      | _ => none
  | _ => none

/-! ## Parser (src/queue/parser.ts) -/

/-- Parser state while scanning the lines of one decision section. -/
structure SecState where
  d : Decision
  inOptions : Bool
  ctx : List String
deriving Repr

/-- One step of the line loop in `parseDecisionSection` (parser.ts lines
33–70); `raw` is the untrimmed line, the source works on `raw.trim()`. -/
def secStep (st : SecState) (raw : String) : SecState :=
  let line := trimS raw
  if startsWithS line "id:" then
    { st with d := { st.d with id := trimS (dropChars 3 line) } }
  else if startsWithS line "status:" then
    { st with d := { st.d with status := trimS (dropChars 7 line) } }
  else if startsWithS line "answer:" then
    let val := trimS (dropChars 7 line)
    { st with d := { st.d with answer := if val = "null" ∨ val = "" then none else some val } }
  else if startsWithS line "answered_at:" then
    let val := trimS (dropChars 12 line)
    { st with d := { st.d with answeredAt := if val = "null" ∨ val = "" then none else some val } }
  else if startsWithS line "allow_custom:" then
    { st with d := { st.d with allowCustom := trimS (dropChars 13 line) = "true" } }
  else if startsWithS line "**Context:**" then
    { st with ctx := st.ctx ++ [trimS (dropChars 12 line)], inOptions := false }
  else if startsWithS line "**Options:**" then
    { st with inOptions := true }
  else if st.inOptions ∧ startsWithS line "-" then
    match matchOptionKey line with
    | some k => { st with d := { st.d with options := st.d.options ++ [k] } }
    | none => st
  else if (¬ st.inOptions) ∧ line ≠ "" ∧ (¬ startsWithS line "**") ∧ (¬ startsWithS line "-") then
    { st with ctx := st.ctx ++ [line] }
  else st

/-- The lines of a section after `section.trim().split('\n')`. -/
def secLines (sec : List String) : List String := splitNL (trimL (joinNL sec))

/-- `parseDecisionSection` (parser.ts lines 11–80). -/
def parseDecisionSection (sec : List String) : Option Decision :=
  match secLines sec with
  | [] => none
  | l0 :: rest =>
    if matchSectionTitle l0 then
      let st0 : SecState := ⟨⟨"", "pending", none, none, "", [], false⟩, false, []⟩
      let stF := rest.foldl secStep st0
      let d := { stF.d with context := trimS ⟨List.intercalate [' '] (stF.ctx.map String.data)⟩ }
      if d.id = "" then none else some d
    else none

/-- `body.split(/(?=^## Decision \d+:)/gm)` on a list of lines: a new group
starts before every line matching the strict heading, except that a
zero-width match at position 0 does not split (JavaScript `split`
semantics), so a body whose first line is a heading yields that section as
group 0. -/
def splitSecAux : List String → List (List String)
  | [] => [[]]
  | l :: ls =>
    match splitSecAux ls with
    | g :: gs => if isHeadingStrict l then [] :: (l :: g) :: gs else (l :: g) :: gs
    | [] => [[l]]

/-- Section split of a body, with the position-0 correction. -/
def splitSections (body : List String) : List (List String) :=
  match body with
  | [] => [[]]
  | l :: _ =>
    match splitSecAux body with
    | [] :: rest => if isHeadingStrict l then rest else [] :: rest
    | r => r

/-- Removal of the first `/^#\s+.+\n*/m` match from the context section:
the matched title line goes together with the newlines that follow it,
i.e. with the empty lines after it. -/
def removeTitle : List String → List String
  | [] => []
  | l :: ls => if isHashTitle l then ls.dropWhile (· = "") else l :: removeTitle ls

/-- Context extraction from section 0 (parser.ts lines 124–131): drop the
title line, keep the text before the first `---`, trim. -/
def contextOf (sec : List String) : String :=
  ⟨trimL (takeBefore "---".data (joinNL (removeTitle sec)))⟩

/-- The required front-matter keys (parser.ts line 94). -/
def requiredFields : List String := ["id", "agent", "session", "title", "status"]

/-- The decision list decoded from a document's body. -/
def decisionsOf (body : List String) : List Decision :=
  ((splitSections body).drop 1).filterMap parseDecisionSection

/-- The frontmatter object built by `parseDecisionFile` (parser.ts lines
102–118) before the count recomputation. -/
def frontmatterOf (data : List (String × String)) (now : String) : Frontmatter := {
  id := (lookupRaw data "id").getD ""
  version := getIntD data "version" 1
  agent := (lookupRaw data "agent").getD ""
  session := (lookupRaw data "session").getD ""
  tag := getStrD data "tag" ""
  title := (lookupRaw data "title").getD ""
  priority := getStrD data "priority" "normal"
  status := getStrD data "status" "pending"
  createdAt := getStr2 data "created_at" "createdAt" now
  updatedAt := getStr2 data "updated_at" "updatedAt" now
  completedAt := (lookupVal data "completed_at").orElse (fun _ => lookupVal data "completedAt")
  total := getIntD data "total" 0
  answered := getIntD data "answered" 0
  remaining := getIntD data "remaining" 0
  notifySession := (lookupVal data "notify_session").orElse (fun _ => lookupVal data "notifySession")
}

/-- The successful decode result (parser.ts lines 102–157), including the
count recomputation of lines 142–149: `total` and `answered` are replaced
by recomputed values only when the frontmatter value is `0`, and
`remaining` is always recomputed as `total - answered`. -/
def parsedOf (content : List String) (filePath now : String) : DecisionFile :=
  let fm0 := frontmatterOf (fmData content) now
  let decisions := decisionsOf (fmBody content)
  let total := if fm0.total = 0 then (decisions.length : Int) else fm0.total
  let answered := if fm0.answered = 0
    then ((decisions.filter (fun d => d.answer ≠ none)).length : Int) else fm0.answered
  { frontmatter := { fm0 with total := total, answered := answered, remaining := total - answered }
    context := contextOf ((splitSections (fmBody content)).headD [])
    decisions := decisions
    rawContent := content
    filePath := filePath }

/-- `parseDecisionFile` (parser.ts lines 88–162).  `now` stands for
`new Date().toISOString()` at decode time.  Decoding fails exactly when a
required metadata key is absent. -/
def parseDecisionFile (content : List String) (filePath now : String) : Option DecisionFile :=
  if requiredFields.all (fun k => hasKey (fmData content) k) then
    some (parsedOf content filePath now)
  else none

/-- `isValidDecisionFile` (parser.ts lines 167–169). -/
def isValidDecisionFile (f : DecisionFile) : Bool :=
  f.decisions.length > 0 ∧ f.frontmatter.id ≠ ""

/-! ## Writer (src/queue/writer.ts) -/

/-- `updateFrontmatter` (writer.ts lines 327–338): re-read the front
matter, merge the updates object-spread style, re-serialise. -/
def updateFrontmatter (content : List String) (upd : List (String × String)) : List String :=
  stringifyFM (mergeFM (fmData content) upd) (fmBody content)

/-- The insertion trigger of `updateDecisionInBody` (writer.ts line 391):
an empty (after trim) line, or a line starting with `**` or `-`
(untrimmed). -/
def isTrigger (l : String) : Bool :=
  trimS l = "" ∨ startsWithS l "**" ∨ startsWithS l "-"

/-- A line that switches the body editor onto a target decision
(writer.ts line 365): its trimmed form starts with `id:` and the untrimmed
line contains `decisionId` as a substring. -/
def isIdMatch (decisionId : String) (l : String) : Bool :=
  startsWithS (trimS l) "id:" ∧ containsSub l decisionId

/-- The line loop of `updateDecisionInBody` (writer.ts lines 355–399),
threading the `inTargetDecision` and `foundAnswer` flags. -/
def bodyEditGo (decisionId answer status now : String) :
    Bool → Bool → List String → List String
  | _, _, [] => []
  | inT, found, l :: ls =>
    let inT1 := if isHeadingStrict l then false else inT
    let found1 := if isHeadingStrict l then false else found
    let inT2 := if isIdMatch decisionId l then true else inT1
    if inT2 ∧ startsWithS (trimS l) "status:" then
      ("status: " ++ status) :: bodyEditGo decisionId answer status now inT2 found1 ls
    else if inT2 ∧ startsWithS (trimS l) "answer:" then
      ("answer: " ++ answer) :: bodyEditGo decisionId answer status now inT2 true ls
    else if inT2 ∧ startsWithS (trimS l) "answered_at:" then
      ("answered_at: " ++ now) :: bodyEditGo decisionId answer status now inT2 found1 ls
    else if inT2 ∧ (¬ found1) ∧ isTrigger l then
      ("answer: " ++ answer) :: ("answered_at: " ++ now) :: l ::
        bodyEditGo decisionId answer status now inT2 true ls
    else
      l :: bodyEditGo decisionId answer status now inT2 found1 ls

/-- `updateDecisionInBody` (writer.ts lines 343–402); the loop runs over
every line of the document, front matter included. -/
def updateDecisionInBody (content : List String) (decisionId answer status now : String) :
    List String :=
  bodyEditGo decisionId answer status now false false content

/-- The answered count recomputed by `updateDecision` (writer.ts lines
433–435): decisions that already have an answer, or whose id equals the
updated one. -/
def answeredCountAfter (decisions : List Decision) (decisionId : String) : Nat :=
  (decisions.filter (fun d => d.answer ≠ none ∨ d.id = decisionId)).length

/-- The front-matter updates written by `updateDecision` (writer.ts lines
436–450). -/
def updateDecisionFM (decisions : List Decision) (decisionId now : String) :
    List (String × String) :=
  let cnt := answeredCountAfter decisions decisionId
  let rem := decisions.length - cnt
  [("status", if rem = 0 then "ready" else "in_progress"),
   ("answered", natToStr cnt), ("remaining", natToStr rem), ("updated_at", now)]

/-- The document written by `updateDecision` (writer.ts lines 407–461),
`none` when the current document does not parse. -/
def updateDecisionContent (content : List String) (filePath decisionId answer now : String) :
    Option (List String) :=
  match parseDecisionFile content filePath now with
  | none => none
  | some parsed =>
    some (updateFrontmatter (updateDecisionInBody content decisionId answer "answered" now)
      (updateDecisionFM parsed.decisions decisionId now))

/-- `updateDecision`'s return value: the re-parse of the freshly written
document. -/
def updateDecision (content : List String) (filePath decisionId answer now : String) :
    Option DecisionFile :=
  (updateDecisionContent content filePath decisionId answer now).bind
    (fun c => parseDecisionFile c filePath now)

/-- `skipDecision` (writer.ts lines 466–471): `updateDecision` with the
reserved sentinel answer. -/
def skipDecision (content : List String) (filePath decisionId now : String) :
    Option DecisionFile :=
  updateDecision content filePath decisionId "__skipped__" now

/-- Raw document written by `skipDecision`. -/
def skipDecisionContent (content : List String) (filePath decisionId now : String) :
    Option (List String) :=
  updateDecisionContent content filePath decisionId "__skipped__" now

/-- The front-matter rewrite performed by `completePlan` (writer.ts lines
484–488). -/
def completePlanContent (content : List String) (now : String) : List String :=
  updateFrontmatter content
    [("status", "completed"), ("completed_at", now), ("updated_at", now)]

/-! ## Queue manager (src/queue/index.ts) -/

/-- The in-memory cache: file path to decoded plan, in insertion order. -/
abbrev Cache := List (String × DecisionFile)

/-- `priorityOrder[p] ?? 2` (index.ts lines 107–117). -/
def priorityRank (p : String) : Nat :=
  if p = "urgent" then 0
  else if p = "high" then 1
  else if p = "normal" then 2
  else if p = "low" then 3
  else 2

/-- The sort comparator of `getPending` (index.ts lines 115–124) as a
total boolean order: priority rank first, then creation time, where
`time` models `s => new Date(s).getTime()`. -/
def planLe (time : String → Int) (a b : DecisionFile) : Bool :=
  priorityRank a.frontmatter.priority < priorityRank b.frontmatter.priority ∨
    (priorityRank a.frontmatter.priority = priorityRank b.frontmatter.priority ∧
      time a.frontmatter.createdAt ≤ time b.frontmatter.createdAt)

/-- `getPending` (index.ts lines 104–125): the cached plans, stably sorted
by the comparator. -/
def getPendingM (time : String → Int) (cache : Cache) : List DecisionFile :=
  (cache.map Prod.snd).mergeSort (planLe time)

/-- `getPlan` (index.ts lines 130–137): linear search by frontmatter id. -/
def getPlanM (cache : Cache) (planId : String) : Option DecisionFile :=
  (cache.map Prod.snd).find? (fun p => p.frontmatter.id = planId)

/-- Outcome of a `submitPlan` call: returned plan, new cache, relocation
source path, and the notify session when a notification is written. -/
structure SubmitOutcome where
  plan : Option DecisionFile
  cache : Cache
  relocatedFrom : Option String
  notified : Option String
deriving Repr

/-- Modelled from the spec: `submitPlan(planId)` is called by
`handleSubmit` (src/bot/callbacks.ts line 442) but its implementation is
not among the provided QueueManager sources; spec §4.4 defines it: only
valid when the plan's status is `ready`; then the status flips to
`completed` with `completedAt`/`updatedAt` stamped, the file is relocated
out of the pending cache, and a notification is emitted when
`notifySession` is set; for an absent plan or one not in `ready` state it
returns a not-found/no-op signal and changes nothing. -/
def submitPlanM (cache : Cache) (planId now : String) : SubmitOutcome :=
  match getPlanM cache planId with
  | none => ⟨none, cache, none, none⟩
  | some p =>
    if p.frontmatter.status = "ready" then
      let p' := { p with frontmatter :=
        { p.frontmatter with status := "completed", completedAt := some now, updatedAt := now } }
      ⟨some p', List.filter (fun e => e.1 ≠ p.filePath) cache, some p.filePath,
        p.frontmatter.notifySession⟩
    else ⟨none, cache, none, none⟩

/-! ## Helper lemmas -/

/-- Successful decodes are exactly `parsedOf` under the required-key check. -/
lemma parse_eq_some {content : List String} {path now : String} {f : DecisionFile}
    (h : parseDecisionFile content path now = some f) :
    requiredFields.all (fun k => hasKey (fmData content) k) = true ∧
      f = parsedOf content path now := by
  unfold parseDecisionFile at h
  split at h
  · exact ⟨by assumption, (Option.some.injEq _ _ ▸ h).symm⟩
  · cases h

/-- The comparator of `getPending` is transitive. -/
lemma planLe_trans (time : String → Int) (a b c : DecisionFile)
    (hab : planLe time a b = true) (hbc : planLe time b c = true) :
    planLe time a c = true := by
  simp only [planLe, decide_eq_true_eq] at *
  omega

/-- The comparator of `getPending` is total. -/
lemma planLe_total (time : String → Int) (a b : DecisionFile) :
    (planLe time a b || planLe time b a) = true := by
  simp only [planLe, Bool.or_eq_true, decide_eq_true_eq]
  omega

/-! ## String and trim lemmas -/

lemma mk_data (s : String) : (⟨s.data⟩ : String) = s := by cases s; rfl

lemma data_append (a b : String) : (a ++ b).data = a.data ++ b.data := by
  cases a; cases b; rfl

lemma dropWhile_head_not {α : Type} {p : α → Bool} {l : List α} {c : α} {cs : List α}
    (h : l.dropWhile p = c :: cs) : p c = false := by
  induction l with
  | nil => simp at h
  | cons a as ih =>
    by_cases hp : p a
    · exact ih (by simpa [List.dropWhile_cons, hp] using h)
    · rw [List.dropWhile_cons] at h
      simp only [hp] at h
      cases h
      simpa using hp

lemma trimL_eq_rdrop (s : List Char) :
    trimL s = List.rdropWhile Char.isWhitespace (s.dropWhile Char.isWhitespace) := rfl

lemma dropWhile_of_neg_head {p : Char → Bool} {l : List Char}
    (h : ∀ c cs, l = c :: cs → p c = false) : l.dropWhile p = l := by
  cases l with
  | nil => rfl
  | cons c cs => rw [List.dropWhile_cons]; simp [h c cs rfl]

/-- JavaScript `trim` is idempotent. -/
lemma trimL_idem (s : List Char) : trimL (trimL s) = trimL s := by
  rw [trimL_eq_rdrop, trimL_eq_rdrop]
  set y := s.dropWhile Char.isWhitespace with hy
  have hdrop : (List.rdropWhile Char.isWhitespace y).dropWhile Char.isWhitespace =
      List.rdropWhile Char.isWhitespace y := by
    apply dropWhile_of_neg_head
    intro c cs hc
    obtain ⟨t, ht⟩ := (List.rdropWhile_prefix Char.isWhitespace y)
    have h3 : List.dropWhile Char.isWhitespace s = c :: (cs ++ t) := by
      rw [← hy, ← ht, hc]
      simp
    exact dropWhile_head_not h3
  rw [hdrop, List.rdropWhile_idempotent]

/-- Characters of the trimmed list come from the original. -/
lemma trimL_subset (s : List Char) : ∀ c ∈ trimL s, c ∈ s := by
  intro c hc
  rw [trimL_eq_rdrop] at hc
  obtain ⟨t, ht⟩ := List.rdropWhile_prefix Char.isWhitespace (s.dropWhile Char.isWhitespace)
  have h1 : c ∈ s.dropWhile Char.isWhitespace := by
    rw [← ht]; exact List.mem_append_left _ hc
  obtain ⟨u, hu⟩ := List.dropWhile_suffix (l := s) (p := Char.isWhitespace)
  rw [← hu]
  exact List.mem_append_right _ h1

/-- Trim is the identity on lists without whitespace characters. -/
lemma trimL_eq_self_of_nonws {s : List Char} (h : ∀ c ∈ s, c.isWhitespace = false) :
    trimL s = s := by
  rw [trimL_eq_rdrop]
  have h1 : s.dropWhile Char.isWhitespace = s :=
    dropWhile_of_neg_head (fun c cs hc => h c (hc ▸ List.mem_cons_self c cs))
  rw [h1, List.rdropWhile_eq_self_iff.mpr]
  intro hne
  exact (h _ (List.getLast_mem hne) ▸ by simp)

/-! ## Front-matter round-trip lemmas -/

lemma breakAtColon_append {k : List Char} (rest : List Char) (hk : ':' ∉ k) :
    breakAtColon (k ++ ':' :: rest) = some (k, rest) := by
  induction k with
  | nil => simp [breakAtColon]
  | cons c cs ih =>
    have hc : c ≠ ':' := fun h => hk (h ▸ List.mem_cons_self c cs)
    simp only [List.cons_append, breakAtColon, if_neg hc, List.append_eq]
    rw [ih (fun h => hk (List.mem_cons_of_mem c h))]
    rfl

lemma breakAtColon_some {cs : List Char} {a b : List Char}
    (h : breakAtColon cs = some (a, b)) : ':' ∉ a ∧ cs = a ++ ':' :: b := by
  induction cs generalizing a b with
  | nil => simp [breakAtColon] at h
  | cons c cs ih =>
    by_cases hc : c = ':'
    · simp [breakAtColon, hc] at h
      obtain ⟨ha, hb⟩ := h
      subst ha; subst hb
      simp [hc]
    · simp only [breakAtColon, if_neg hc, Option.map_eq_some'] at h
      obtain ⟨⟨a', b'⟩, h1, h2⟩ := h
      obtain ⟨ha, hb⟩ := Prod.mk.injEq .. ▸ h2
      obtain ⟨h3, h4⟩ := ih h1
      subst hb
      constructor
      · intro hmem
        rcases List.mem_cons.mp (ha ▸ hmem) with h5 | h5
        · exact hc h5.symm
        · exact h3 h5
      · rw [← ha, h4]; rfl

/-- A serialised canonical binding parses back to itself. -/
lemma parseKV_kvLine {p : String × String} (hk : ':' ∉ p.1.data)
    (hv : trimL p.2.data = p.2.data) : parseKV (kvLine p) = some p := by
  have hdata : (kvLine p).data = p.1.data ++ ':' :: ' ' :: p.2.data := by
    show (p.1 ++ ": " ++ p.2).data = _
    rw [data_append, data_append, List.append_assoc]
    rfl
  unfold parseKV
  rw [hdata, breakAtColon_append _ hk]
  have htr : trimL (' ' :: p.2.data) = trimL p.2.data := by
    have : (' ' :: p.2.data).dropWhile Char.isWhitespace =
        p.2.data.dropWhile Char.isWhitespace := by
      rw [List.dropWhile_cons]
      simp
    rw [trimL_eq_rdrop, trimL_eq_rdrop, this]
  simp only [Option.map_some']
  rw [htr, hv]

/-- Canonical front-matter data: colon-free keys and trimmed values. -/
def FMCanon (data : List (String × String)) : Prop :=
  ∀ p ∈ data, ':' ∉ p.1.data ∧ trimL p.2.data = p.2.data

instance : DecidablePred FMCanon := fun data =>
  inferInstanceAs (Decidable (∀ p ∈ data, _ ∧ _))

/-- Data read back from any document is canonical. -/
lemma fmData_canon (content : List String) : FMCanon (fmData content) := by
  intro p hp
  unfold fmData at hp
  obtain ⟨l, -, hl⟩ := List.mem_filterMap.mp hp
  unfold parseKV at hl
  obtain ⟨⟨a, b⟩, h1, h2⟩ := Option.map_eq_some'.mp hl
  obtain ⟨h3, -⟩ := breakAtColon_some h1
  cases h2
  exact ⟨h3, trimL_idem b⟩

lemma kvLine_ne_delim (p : String × String) : kvLine p ≠ "---" := by
  intro h
  have hdata : (kvLine p).data = p.1.data ++ ':' :: ' ' :: p.2.data := by
    show (p.1 ++ ": " ++ p.2).data = _
    rw [data_append, data_append, List.append_assoc]
    rfl
  have : ':' ∈ (kvLine p).data := hdata ▸ List.mem_append_right _ (by simp)
  rw [h] at this
  simp at this

lemma splitAtDelim_append {ls : List String} (rest : List String)
    (h : ∀ l ∈ ls, l ≠ "---") :
    splitAtDelim (ls ++ "---" :: rest) = some (ls, rest) := by
  induction ls with
  | nil => simp [splitAtDelim]
  | cons l ls ih =>
    simp only [List.cons_append, splitAtDelim, if_neg (h l (List.mem_cons_self l ls)),
      List.append_eq]
    rw [ih (fun x hx => h x (List.mem_cons_of_mem l hx))]
    rfl

lemma parseFMlines_stringify (data : List (String × String)) (body : List String) :
    parseFMlines (stringifyFM data body) = (data.map kvLine, body) := by
  have h1 : splitAtDelim (data.map kvLine ++ "---" :: body) =
      some (data.map kvLine, body) := by
    apply splitAtDelim_append
    intro l hl
    obtain ⟨p, -, hp⟩ := List.mem_map.mp hl
    exact hp ▸ kvLine_ne_delim p
  show parseFMlines ("---" :: (data.map kvLine ++ "---" :: body)) = _
  simp only [parseFMlines, if_pos rfl, h1]
  simp

/-- Round trip: serialising canonical data and reading it back is the
identity on the data. -/
lemma fmData_stringify {data : List (String × String)} (body : List String)
    (h : FMCanon data) : fmData (stringifyFM data body) = data := by
  unfold fmData
  rw [parseFMlines_stringify]
  induction data with
  | nil => rfl
  | cons p ps ih =>
    have hp := h p (List.mem_cons_self p ps)
    simp only [List.map_cons, List.filterMap_cons, parseKV_kvLine hp.1 hp.2]
    rw [ih (fun q hq => h q (List.mem_cons_of_mem p hq))]

lemma fmBody_stringify (data : List (String × String)) (body : List String) :
    fmBody (stringifyFM data body) = body := by
  unfold fmBody
  rw [parseFMlines_stringify]

/-! ## Merge lemmas -/

lemma lookupRaw_eq_none_iff {data : List (String × String)} {k : String} :
    lookupRaw data k = none ↔ hasKey data k = false := by
  unfold lookupRaw hasKey
  simp [List.find?_eq_none, List.any_eq_false]

lemma find?_map_keypres {f : String × String → String × String} {k : String}
    (data : List (String × String)) (hf : ∀ p, (f p).1 = p.1) :
    List.find? (fun p => p.1 = k) (data.map f) =
      (List.find? (fun p => p.1 = k) data).map f := by
  induction data with
  | nil => rfl
  | cons p ps ih =>
    simp only [List.map_cons, List.find?_cons, hf p]
    by_cases hk : p.1 = k
    · simp [hk]
    · rw [decide_eq_false hk]
      simpa using ih

lemma find?_filter_keys {q : String × String → Bool} {k : String}
    (l : List (String × String)) (h : ∀ x ∈ l, x.1 = k → q x = true) :
    List.find? (fun p => p.1 = k) (l.filter q) = List.find? (fun p => p.1 = k) l := by
  induction l with
  | nil => rfl
  | cons p ps ih =>
    have ih2 := ih (fun x hx => h x (List.mem_cons_of_mem p hx))
    by_cases hk : p.1 = k
    · have hq : q p = true := h p (List.mem_cons_self p ps) hk
      simp [List.filter_cons, hq, List.find?_cons, hk]
    · have hd : decide (p.1 = k) = false := decide_eq_false hk
      by_cases hq : q p = true
      · rw [List.filter_cons, if_pos hq, List.find?_cons, List.find?_cons, hd]
        exact ih2
      · rw [List.filter_cons, if_neg hq, ih2, List.find?_cons, hd]

/-- The merged entry for a data key keeps that key. -/
lemma mergeEntry_fst (upd : List (String × String)) (p : String × String) :
    (mergeEntry upd p).1 = p.1 := by
  unfold mergeEntry
  cases lookupRaw upd p.1 <;> rfl

/-- A key updated by the merge reads back the update's value. -/
lemma lookupRaw_mergeFM {upd : List (String × String)} {k v : String}
    (data : List (String × String)) (h : lookupRaw upd k = some v) :
    lookupRaw (mergeFM data upd) k = some v := by
  unfold mergeFM lookupRaw
  rw [List.find?_append, find?_map_keypres data (fun p => mergeEntry_fst upd p)]
  cases hd : List.find? (fun p => p.1 = k) data with
  | some p0 =>
    have hp0 : p0.1 = k := by simpa using List.find?_some hd
    have hval : mergeEntry upd p0 = (p0.1, v) := by
      unfold mergeEntry
      rw [hp0, h, ← hp0]
    simp [hval]
  | none =>
    simp only [Option.map_none', Option.none_or]
    rw [find?_filter_keys]
    · unfold lookupRaw at h
      exact h
    · intro x hx hxk
      have hdk : hasKey data k = false := by
        rw [← lookupRaw_eq_none_iff]
        unfold lookupRaw
        rw [hd]
        rfl
      simp [hxk, hdk]

/-- Keys not touched by the update read back unchanged. -/
lemma lookupRaw_mergeFM_frame {upd : List (String × String)} {k : String}
    (data : List (String × String)) (h : lookupRaw upd k = none) :
    lookupRaw (mergeFM data upd) k = lookupRaw data k := by
  unfold mergeFM lookupRaw
  rw [List.find?_append, find?_map_keypres data (fun p => mergeEntry_fst upd p)]
  cases hd : List.find? (fun p => p.1 = k) data with
  | some p0 =>
    have hp0 : p0.1 = k := by simpa using List.find?_some hd
    have hval : mergeEntry upd p0 = p0 := by
      unfold mergeEntry
      rw [hp0, h]
    simp [hval]
  | none =>
    simp only [Option.map_none', Option.or]
    have hnone : List.find? (fun p => p.1 = k) upd = none := by
      unfold lookupRaw at h
      cases hu : List.find? (fun p => p.1 = k) upd with
      | some q => rw [hu] at h; simp at h
      | none => rfl
    have : List.find? (fun p => p.1 = k) (upd.filter (fun q => ¬ hasKey data q.1)) = none := by
      rw [List.find?_eq_none] at hnone ⊢
      intro x hx
      exact hnone x (List.mem_of_mem_filter hx)
    rw [this]
    rfl

/-- Merging preserves key presence. -/
lemma hasKey_mergeFM (data upd : List (String × String)) (k : String)
    (h : hasKey data k = true) : hasKey (mergeFM data upd) k = true := by
  unfold hasKey at h ⊢
  rw [List.any_eq_true] at h ⊢
  obtain ⟨p, hp, hpk⟩ := h
  refine ⟨mergeEntry upd p, ?_, ?_⟩
  · unfold mergeFM
    exact List.mem_append_left _ (List.mem_map.mpr ⟨p, hp, rfl⟩)
  · rw [mergeEntry_fst]
    exact hpk

/-- Merging canonical data with canonical updates is canonical. -/
lemma mergeFM_canon {data upd : List (String × String)}
    (hd : FMCanon data) (hu : FMCanon upd) : FMCanon (mergeFM data upd) := by
  intro p hp
  unfold mergeFM at hp
  rcases List.mem_append.mp hp with h | h
  · obtain ⟨q, hq, hfq⟩ := List.mem_map.mp h
    unfold mergeEntry at hfq
    cases hl : lookupRaw upd q.1 with
    | some v =>
      rw [hl] at hfq
      obtain ⟨w, hw, hv⟩ : ∃ w ∈ upd, w.2 = v := by
        unfold lookupRaw at hl
        obtain ⟨w, h1, h2⟩ := Option.map_eq_some'.mp hl
        exact ⟨w, List.mem_of_find?_eq_some h1, h2⟩
      cases hfq
      exact ⟨(hd q hq).1, hv ▸ (hu w hw).2⟩
    | none =>
      rw [hl] at hfq
      exact hfq ▸ hd q hq
  · exact hu p (List.mem_of_mem_filter h)

/-! ## Digit-string lemmas -/

/-- A character is digit-like when it is one of `'0'` … `'9'`. -/
def isDigitChar (c : Char) : Bool := '0' ≤ c ∧ c ≤ '9'

lemma natDigits_all (fuel n : Nat) (acc : List Char)
    (hacc : ∀ c ∈ acc, isDigitChar c = true) :
    ∀ c ∈ natDigits fuel n acc, isDigitChar c = true := by
  induction fuel generalizing n acc with
  | zero => simpa [natDigits] using hacc
  | succ fuel ih =>
    match n with
    | 0 => simpa [natDigits] using hacc
    | m + 1 =>
      have hstep : natDigits (fuel + 1) (m + 1) acc =
          natDigits fuel ((m + 1) / 10) (Char.ofNat (48 + (m + 1) % 10) :: acc) := rfl
      rw [hstep]
      apply ih
      intro c hc
      rcases List.mem_cons.mp hc with h | h
      · subst h
        have h10 : (m + 1) % 10 < 10 := Nat.mod_lt _ (by omega)
        revert h10
        generalize (m + 1) % 10 = r
        revert r
        decide
      · exact hacc c h

lemma natToStr_digits (n : Nat) : ∀ c ∈ (natToStr n).data, isDigitChar c = true := by
  unfold natToStr
  by_cases h : n = 0
  · simp only [h, if_pos rfl]
    decide
  · rw [if_neg h]
    exact natDigits_all n n [] (by simp)

lemma digitChar_nonws {c : Char} (h : isDigitChar c = true) : c.isWhitespace = false := by
  have hne : c ≠ ' ' ∧ c ≠ '\t' ∧ c ≠ '\n' ∧ c ≠ '\r' := by
    refine ⟨?_, ?_, ?_, ?_⟩ <;> rintro rfl <;> revert h <;> decide
  simp [Char.isWhitespace, hne.1, hne.2.1, hne.2.2.1, hne.2.2.2]

lemma digitChar_ne_colon {c : Char} (h : isDigitChar c = true) : c ≠ ':' := by
  intro hc
  subst hc
  simp [isDigitChar, Char.le_def] at h

lemma natToStr_trim (n : Nat) : trimL (natToStr n).data = (natToStr n).data :=
  trimL_eq_self_of_nonws (fun c hc => digitChar_nonws (natToStr_digits n c hc))

/-- The writer's front-matter updates are canonical when `now` carries no
surrounding whitespace. -/
lemma updateDecisionFM_canon (decisions : List Decision) (did now : String)
    (hnow : trimL now.data = now.data) :
    FMCanon (updateDecisionFM decisions did now) := by
  intro p hp
  unfold updateDecisionFM at hp
  simp only [List.mem_cons, List.mem_singleton] at hp
  rcases hp with h | h | h | h
  · subst h
    constructor
    · by_cases hr : decisions.length - answeredCountAfter decisions did = 0 <;>
        simp [hr]
    · by_cases hr : decisions.length - answeredCountAfter decisions did = 0 <;>
        simp [hr] <;> decide
  · subst h
    refine ⟨?_, natToStr_trim _⟩
    show ':' ∉ "answered".data
    decide
  · subst h
    refine ⟨?_, natToStr_trim _⟩
    show ':' ∉ "remaining".data
    decide
  · rcases h with h | h
    · subst h
      refine ⟨?_, hnow⟩
      show ':' ∉ "updated_at".data
      decide
    · simp at h

/-! ## Prefix and trim-head lemmas -/

lemma startsWith_data {l p : String} (h : startsWithS l p = true) :
    ∃ t, l.data = p.data ++ t := by
  unfold startsWithS at h
  obtain ⟨t, ht⟩ := List.isPrefixOf_iff_prefix.mp h
  exact ⟨t, ht.symm⟩

lemma trimL_head {c : Char} (cs : List Char) (hw : c.isWhitespace = false) :
    trimL (c :: cs) = [] ∨ ∃ t, trimL (c :: cs) = c :: t := by
  rw [trimL_eq_rdrop]
  have h1 : (c :: cs).dropWhile Char.isWhitespace = c :: cs := by
    rw [List.dropWhile_cons, hw]
    simp
  rw [h1]
  cases h : List.rdropWhile Char.isWhitespace (c :: cs) with
  | nil => exact Or.inl rfl
  | cons d ds =>
    obtain ⟨t, ht⟩ := List.rdropWhile_prefix Char.isWhitespace (c :: cs)
    rw [h] at ht
    have : d = c := by
      have := congrArg (List.head? ·) ht
      simpa using this
    exact Or.inr ⟨ds, by rw [this]⟩

lemma not_prefix_of_head_ne {c c' : Char} {ps s : List Char} (hne : c' ≠ c) :
    (c' :: ps).isPrefixOf (c :: s) = false := by
  show (c' == c && ps.isPrefixOf s) = false
  simp [hne]

/-- A line whose first character is a non-whitespace `c` cannot, after
trimming, start with a pattern whose first character differs from `c`. -/
lemma trim_startsWith_false {l : String} {c : Char} {rest : List Char}
    (hl : l.data = c :: rest) (hw : c.isWhitespace = false)
    {p : String} {c' : Char} {ps : List Char} (hp : p.data = c' :: ps) (hne : c' ≠ c) :
    startsWithS (trimS l) p = false := by
  show p.data.isPrefixOf (trimL l.data) = false
  rw [hl, hp]
  rcases trimL_head rest hw with h | ⟨t, h⟩ <;> rw [h]
  · rfl
  · exact not_prefix_of_head_ne hne

lemma dropWhile_all_neg {p : Char → Bool} {l : List Char}
    (h : ∀ c ∈ l, p c = false) : l.dropWhile p = l := by
  apply dropWhile_of_neg_head
  intro c cs hc
  exact h c (hc ▸ List.mem_cons_self c cs)

/-- Right trim distributes over an append whose left part has no
whitespace. -/
lemma rdropWhile_append_nonws (a b : List Char)
    (ha : ∀ c ∈ a, c.isWhitespace = false) :
    List.rdropWhile Char.isWhitespace (a ++ b) =
      a ++ List.rdropWhile Char.isWhitespace b := by
  unfold List.rdropWhile
  rw [List.reverse_append, List.dropWhile_append]
  by_cases hb : (b.reverse.dropWhile Char.isWhitespace).isEmpty = true
  · rw [if_pos hb]
    have h1 : a.reverse.dropWhile Char.isWhitespace = a.reverse :=
      dropWhile_all_neg (fun c hc => ha c (List.mem_reverse.mp hc))
    rw [h1, List.reverse_reverse]
    rw [List.isEmpty_iff] at hb
    rw [hb]
    simp
  · rw [if_neg hb, List.reverse_append, List.reverse_reverse]

/-- A non-whitespace pattern survives at the head of the trim of any line
it starts. -/
lemma trim_isPrefix_append (p q : List Char) (hws : ∀ c ∈ p, c.isWhitespace = false) :
    p.isPrefixOf (trimL (p ++ q)) = true := by
  cases hp : p with
  | nil => simp [List.isPrefixOf]
  | cons c ps =>
    rw [trimL_eq_rdrop]
    have hw : c.isWhitespace = false := hws c (hp ▸ List.mem_cons_self c ps)
    have h1 : ((c :: ps) ++ q).dropWhile Char.isWhitespace = (c :: ps) ++ q := by
      rw [List.cons_append, List.dropWhile_cons, hw]
      simp
    rw [h1, rdropWhile_append_nonws _ _ (hp ▸ hws)]
    exact List.isPrefixOf_iff_prefix.mpr ⟨_, rfl⟩

/-! ## Line classification lemmas -/

lemma trimL_head' {c : Char} (cs : List Char) (hw : c.isWhitespace = false) :
    ∃ t, trimL (c :: cs) = c :: t := by
  rcases trimL_head cs hw with h | h
  · exfalso
    rw [trimL_eq_rdrop] at h
    have h1 : (c :: cs).dropWhile Char.isWhitespace = c :: cs := by
      rw [List.dropWhile_cons, hw]
      simp
    rw [h1, List.rdropWhile_eq_nil_iff] at h
    rw [h c (List.mem_cons_self c cs)] at hw
    cases hw
  · exact h

/-- Two patterns neither of which is a prefix of the other cannot both
start the same string. -/
lemma startsWith_disjoint {l p1 p2 : String} (h1 : startsWithS l p1 = true)
    (hcomp : (p1.data.isPrefixOf p2.data || p2.data.isPrefixOf p1.data) = false) :
    startsWithS l p2 = false := by
  by_contra h2
  rw [Bool.not_eq_false] at h2
  rcases List.prefix_or_prefix_of_prefix (List.isPrefixOf_iff_prefix.mp h1)
      (List.isPrefixOf_iff_prefix.mp h2) with h | h
  · rw [List.isPrefixOf_iff_prefix.mpr h] at hcomp
    simp at hcomp
  · rw [List.isPrefixOf_iff_prefix.mpr h] at hcomp
    simp at hcomp

/-- A heading line starts with `#`. -/
lemma heading_data {l : String} (h : isHeadingStrict l = true) :
    ∃ t, l.data = '#' :: t := by
  unfold isHeadingStrict dropExact at h
  by_cases hp : ("## Decision ".data.isPrefixOf l.data) = true
  · obtain ⟨t, ht⟩ := List.isPrefixOf_iff_prefix.mp hp
    exact ⟨"# Decision ".data ++ t, by rw [← ht]; rfl⟩
  · rw [Bool.not_eq_true] at hp
    rw [hp] at h
    cases h

lemma heading_not_idmatch {did l : String} (h : isHeadingStrict l = true) :
    isIdMatch did l = false := by
  obtain ⟨t, ht⟩ := heading_data h
  unfold isIdMatch
  rw [trim_startsWith_false ht (by decide) (p := "id:") rfl (by decide)]
  rfl

lemma idmatch_not_heading {did l : String} (h : isIdMatch did l = true) :
    isHeadingStrict l = false := by
  by_contra hh
  rw [Bool.not_eq_false] at hh
  rw [heading_not_idmatch hh] at h
  cases h

/-- The trimmed form of a heading line is nonempty and starts with `#`. -/
lemma heading_trim {l : String} (h : isHeadingStrict l = true) :
    ∃ t, (trimS l).data = '#' :: t := by
  obtain ⟨t, ht⟩ := heading_data h
  show ∃ t, trimL l.data = _
  rw [ht]
  exact trimL_head' t (by decide)

/-- A heading line is not an insertion trigger. -/
lemma heading_not_trigger {l : String} (h : isHeadingStrict l = true) :
    isTrigger l = false := by
  obtain ⟨t, ht⟩ := heading_data h
  obtain ⟨t', ht'⟩ := heading_trim h
  unfold isTrigger
  have h1 : trimS l ≠ "" := by
    intro he
    rw [he] at ht'
    cases ht'
  have h2 : startsWithS l "**" = false := by
    show "**".data.isPrefixOf l.data = false
    rw [ht]
    exact not_prefix_of_head_ne (by decide)
  have h3 : startsWithS l "-" = false := by
    show "-".data.isPrefixOf l.data = false
    rw [ht]
    exact not_prefix_of_head_ne (by decide)
  simp [h1, h2, h3]

/-- A heading line hits none of the editor's key-line branches. -/
lemma heading_not_kv {l : String} (h : isHeadingStrict l = true) (p : String)
    {c' : Char} {ps : List Char} (hp : p.data = c' :: ps) (hne : c' ≠ '#') :
    startsWithS (trimS l) p = false := by
  obtain ⟨t, ht⟩ := heading_data h
  exact trim_startsWith_false ht (by decide) hp hne

/-- A trigger line hits none of the editor's key-line branches. -/
lemma trigger_not_kv {l : String} (ht : isTrigger l = true) {p : String}
    {c' : Char} {ps : List Char} (hp : p.data = c' :: ps)
    (h1 : c' ≠ '*') (h2 : c' ≠ '-') : startsWithS (trimS l) p = false := by
  unfold isTrigger at ht
  rw [decide_eq_true_eq] at ht
  rcases ht with he | hs | hs
  · show p.data.isPrefixOf (trimS l).data = false
    rw [he, hp]
    rfl
  · obtain ⟨t, hdata⟩ := startsWith_data hs
    have : l.data = '*' :: ('*' :: t) := by rw [hdata]; rfl
    exact trim_startsWith_false this (by decide) hp h1
  · obtain ⟨t, hdata⟩ := startsWith_data hs
    have : l.data = '-' :: t := by rw [hdata]; rfl
    exact trim_startsWith_false this (by decide) hp h2

/-- An id line is not an insertion trigger. -/
lemma idmatch_not_trigger {did l : String} (h : isIdMatch did l = true) :
    isTrigger l = false := by
  unfold isIdMatch at h
  rw [decide_eq_true_eq] at h
  by_contra htr
  rw [Bool.not_eq_false] at htr
  rw [trigger_not_kv htr (p := "id:") rfl (by decide) (by decide)] at h
  exact absurd h.1 (by simp)

lemma idmatch_starts {did l : String} (h : isIdMatch did l = true) :
    startsWithS (trimS l) "id:" = true := by
  unfold isIdMatch at h
  rw [decide_eq_true_eq] at h
  exact h.1

/-! ## Rewritten-line classification -/

lemma status_line_data (st : String) :
    ("status: " ++ st).data = 's' :: ("tatus: ".data ++ st.data) := by
  rw [data_append]
  rfl

lemma answer_line_data (ans : String) :
    ("answer: " ++ ans).data = 'a' :: ("nswer: ".data ++ ans.data) := by
  rw [data_append]
  rfl

lemma answeredAt_line_data (now : String) :
    ("answered_at: " ++ now).data = 'a' :: ("nswered_at: ".data ++ now.data) := by
  rw [data_append]
  rfl

lemma status_line_not_heading (st : String) :
    isHeadingStrict ("status: " ++ st) = false := rfl

lemma answer_line_not_heading (ans : String) :
    isHeadingStrict ("answer: " ++ ans) = false := rfl

lemma answeredAt_line_not_heading (now : String) :
    isHeadingStrict ("answered_at: " ++ now) = false := rfl

lemma trim_status_line (st : String) :
    startsWithS (trimS ("status: " ++ st)) "status:" = true := by
  show "status:".data.isPrefixOf (trimL ("status: " ++ st).data) = true
  rw [data_append]
  have he : "status: ".data ++ st.data = "status:".data ++ (' ' :: st.data) := rfl
  rw [he]
  exact trim_isPrefix_append _ _ (by decide)

lemma trim_answer_line (ans : String) :
    startsWithS (trimS ("answer: " ++ ans)) "answer:" = true := by
  show "answer:".data.isPrefixOf (trimL ("answer: " ++ ans).data) = true
  rw [data_append]
  have he : "answer: ".data ++ ans.data = "answer:".data ++ (' ' :: ans.data) := rfl
  rw [he]
  exact trim_isPrefix_append _ _ (by decide)

lemma trim_answeredAt_line (now : String) :
    startsWithS (trimS ("answered_at: " ++ now)) "answered_at:" = true := by
  show "answered_at:".data.isPrefixOf (trimL ("answered_at: " ++ now).data) = true
  rw [data_append]
  have he : "answered_at: ".data ++ now.data = "answered_at:".data ++ (' ' :: now.data) := rfl
  rw [he]
  exact trim_isPrefix_append _ _ (by decide)

lemma answer_line_not_status (ans : String) :
    startsWithS (trimS ("answer: " ++ ans)) "status:" = false :=
  trim_startsWith_false (answer_line_data ans) (by decide) (p := "status:") rfl (by decide)

lemma answeredAt_line_not_status (now : String) :
    startsWithS (trimS ("answered_at: " ++ now)) "status:" = false :=
  trim_startsWith_false (answeredAt_line_data now) (by decide) (p := "status:") rfl (by decide)

lemma answeredAt_line_not_answer (now : String) :
    startsWithS (trimS ("answered_at: " ++ now)) "answer:" = false :=
  startsWith_disjoint (trim_answeredAt_line now) (by decide)

/-! ## Body-edit decomposition -/

/-- The rewrite `updateDecisionInBody` performs on the lines of a matched
decision region (after the matching `id:` line, before the next strict
heading); `found` is the `foundAnswer` flag. -/
def editRegion (ans st now : String) : Bool → List String → List String
  | _, [] => []
  | found, l :: ls =>
    if startsWithS (trimS l) "status:" then
      ("status: " ++ st) :: editRegion ans st now found ls
    else if startsWithS (trimS l) "answer:" then
      ("answer: " ++ ans) :: editRegion ans st now true ls
    else if startsWithS (trimS l) "answered_at:" then
      ("answered_at: " ++ now) :: editRegion ans st now found ls
    else if (¬ found) ∧ isTrigger l then
      ("answer: " ++ ans) :: ("answered_at: " ++ now) :: l :: editRegion ans st now true ls
    else l :: editRegion ans st now found ls

/-- Step on a line while outside any target: the line passes through. -/
lemma bodyEditGo_outside {did ans st now : String} {l : String} (ls : List String)
    (f : Bool) (hm : isIdMatch did l = false) :
    bodyEditGo did ans st now false f (l :: ls) =
      l :: bodyEditGo did ans st now false (if isHeadingStrict l then false else f) ls := by
  conv_lhs => unfold bodyEditGo
  by_cases hh : isHeadingStrict l = true <;> simp [hh, hm]

/-- Step on a strict heading: both flags reset and the line passes
through. -/
lemma bodyEditGo_heading {did ans st now : String} {l : String} (ls : List String)
    (inT f : Bool) (hh : isHeadingStrict l = true) :
    bodyEditGo did ans st now inT f (l :: ls) =
      l :: bodyEditGo did ans st now false false ls := by
  conv_lhs => unfold bodyEditGo
  have h1 := heading_not_kv hh "status:" rfl (by decide)
  have h2 := heading_not_kv hh "answer:" rfl (by decide)
  have h3 := heading_not_kv hh "answered_at:" rfl (by decide)
  have h4 := heading_not_trigger hh
  simp [hh, heading_not_idmatch hh, h1, h2, h3, h4]

/-- Step on a matching id line: the target flag switches on and the line
passes through. -/
lemma bodyEditGo_idline {did ans st now : String} {l : String} (ls : List String)
    (inT f : Bool) (hm : isIdMatch did l = true) :
    bodyEditGo did ans st now inT f (l :: ls) =
      l :: bodyEditGo did ans st now true f ls := by
  conv_lhs => unfold bodyEditGo
  have hs := idmatch_starts hm
  have h1 : startsWithS (trimS l) "status:" = false :=
    startsWith_disjoint hs (by decide)
  have h2 : startsWithS (trimS l) "answer:" = false :=
    startsWith_disjoint hs (by decide)
  have h3 : startsWithS (trimS l) "answered_at:" = false :=
    startsWith_disjoint hs (by decide)
  have h4 := idmatch_not_trigger hm
  simp [hm, idmatch_not_heading hm, h1, h2, h3, h4]

/-- Lines that never match the id pattern pass through unchanged when no
target is active. -/
lemma bodyEditGo_nomatch {did ans st now : String} (ls : List String) (f : Bool)
    (h : ∀ l ∈ ls, isIdMatch did l = false) :
    bodyEditGo did ans st now false f ls = ls := by
  induction ls generalizing f with
  | nil => rfl
  | cons l ls ih =>
    rw [bodyEditGo_outside ls f (h l (List.mem_cons_self l ls))]
    rw [ih _ (fun x hx => h x (List.mem_cons_of_mem l hx))]

/-- The editor leaves a match-free prefix untouched. -/
lemma bodyEditGo_append {did ans st now : String} (pre rest : List String)
    (h : ∀ l ∈ pre, isIdMatch did l = false) :
    bodyEditGo did ans st now false false (pre ++ rest) =
      pre ++ bodyEditGo did ans st now false false rest := by
  induction pre with
  | nil => rfl
  | cons l ls ih =>
    rw [List.cons_append, bodyEditGo_outside _ _ (h l (List.mem_cons_self l ls))]
    have : (if isHeadingStrict l then false else false) = false := by
      by_cases hh : isHeadingStrict l = true <;> simp [hh]
    rw [this, ih (fun x hx => h x (List.mem_cons_of_mem l hx))]
    rfl

/-- Inside a target and up to the end of the document, the editor acts as
`editRegion`. -/
lemma bodyEditGo_region {did ans st now : String} (reg : List String) (f : Bool)
    (h : ∀ l ∈ reg, isHeadingStrict l = false) :
    bodyEditGo did ans st now true f reg = editRegion ans st now f reg := by
  induction reg generalizing f with
  | nil => rfl
  | cons l ls ih =>
    have hh := h l (List.mem_cons_self l ls)
    have ih2 := fun f => ih f (fun x hx => h x (List.mem_cons_of_mem l hx))
    conv_lhs => unfold bodyEditGo
    conv_rhs => unfold editRegion
    by_cases hm : isIdMatch did l = true <;>
      by_cases h1 : startsWithS (trimS l) "status:" = true <;>
      by_cases h2 : startsWithS (trimS l) "answer:" = true <;>
      by_cases h3 : startsWithS (trimS l) "answered_at:" = true <;>
      simp [hm, hh, h1, h2, h3, ih2]


/-- Inside a target, the editor acts as `editRegion` up to the next strict
heading, where both flags reset. -/
lemma bodyEditGo_region_cont {did ans st now : String} (reg : List String)
    (hLine : String) (tail : List String) (f : Bool)
    (hr : ∀ l ∈ reg, isHeadingStrict l = false) (hh : isHeadingStrict hLine = true) :
    bodyEditGo did ans st now true f (reg ++ hLine :: tail) =
      editRegion ans st now f reg ++ hLine :: bodyEditGo did ans st now false false tail := by
  induction reg generalizing f with
  | nil => simpa using bodyEditGo_heading tail true f hh
  | cons l ls ih =>
    have hl := hr l (List.mem_cons_self l ls)
    have ih2 := fun f => ih f (fun x hx => hr x (List.mem_cons_of_mem l hx))
    rw [List.cons_append]
    conv_lhs => unfold bodyEditGo
    conv_rhs => unfold editRegion
    by_cases hm : isIdMatch did l = true <;>
      by_cases h1 : startsWithS (trimS l) "status:" = true <;>
      by_cases h2 : startsWithS (trimS l) "answer:" = true <;>
      by_cases h3 : startsWithS (trimS l) "answered_at:" = true <;>
      (simp [hm, hl, h1, h2, h3, ih2]
       try (split_ifs <;> simp))

/-- The rewritten region still contains no strict headings. -/
lemma editRegion_noheading {ans st now : String} (reg : List String) (f : Bool)
    (h : ∀ l ∈ reg, isHeadingStrict l = false) :
    ∀ l ∈ editRegion ans st now f reg, isHeadingStrict l = false := by
  induction reg generalizing f with
  | nil => intro x hx; cases hx
  | cons l ls ih =>
    have hl := h l (List.mem_cons_self l ls)
    have ih2 := fun f => ih f (fun x hx => h x (List.mem_cons_of_mem l hx))
    intro x hx
    rw [editRegion] at hx
    split_ifs at hx with h1 h2 h3 h4 <;>
      simp only [List.mem_cons] at hx
    · rcases hx with rfl | hx
      · exact status_line_not_heading st
      · exact ih2 _ _ hx
    · rcases hx with rfl | hx
      · exact answer_line_not_heading ans
      · exact ih2 _ _ hx
    · rcases hx with rfl | hx
      · exact answeredAt_line_not_heading now
      · exact ih2 _ _ hx
    · rcases hx with rfl | rfl | rfl | hx
      · exact answer_line_not_heading ans
      · exact answeredAt_line_not_heading now
      · exact hl
      · exact ih2 _ _ hx
    · rcases hx with rfl | hx
      · exact hl
      · exact ih2 _ _ hx

lemma editRegion_status_head {ans st now : String} (ls : List String) (f : Bool) :
    editRegion ans st now f (("status: " ++ st) :: ls) =
      ("status: " ++ st) :: editRegion ans st now f ls := by
  conv_lhs => unfold editRegion
  simp [trim_status_line]

lemma editRegion_answer_head {ans st now : String} (ls : List String) (f : Bool) :
    editRegion ans st now f (("answer: " ++ ans) :: ls) =
      ("answer: " ++ ans) :: editRegion ans st now true ls := by
  conv_lhs => unfold editRegion
  simp [answer_line_not_status, trim_answer_line]

lemma editRegion_answeredAt_head {ans st now : String} (ls : List String) (f : Bool) :
    editRegion ans st now f (("answered_at: " ++ now) :: ls) =
      ("answered_at: " ++ now) :: editRegion ans st now f ls := by
  conv_lhs => unfold editRegion
  simp [answeredAt_line_not_status, answeredAt_line_not_answer, trim_answeredAt_line]

/-- The region rewrite is idempotent: re-editing an edited region with the
same arguments changes nothing. -/
lemma editRegion_idem {ans st now : String} (reg : List String) (f : Bool) :
    editRegion ans st now f (editRegion ans st now f reg) =
      editRegion ans st now f reg := by
  induction reg generalizing f with
  | nil => rfl
  | cons l ls ih =>
    conv_rhs => rw [editRegion]
    conv_lhs => rw [editRegion]
    by_cases h1 : startsWithS (trimS l) "status:" = true
    · rw [if_pos h1, editRegion_status_head, ih f]
    · rw [if_neg h1]
      by_cases h2 : startsWithS (trimS l) "answer:" = true
      · rw [if_pos h2, editRegion_answer_head, ih true]
      · rw [if_neg h2]
        by_cases h3 : startsWithS (trimS l) "answered_at:" = true
        · rw [if_pos h3, editRegion_answeredAt_head, ih f]
        · rw [if_neg h3]
          by_cases h4 : (¬ f = true) ∧ isTrigger l = true
          · have hlf : editRegion ans st now true (l :: editRegion ans st now true ls) =
                l :: editRegion ans st now true (editRegion ans st now true ls) := by
              conv_lhs => rw [editRegion]
              rw [if_neg h1, if_neg h2, if_neg h3, if_neg (by simp)]
            rw [if_pos h4, editRegion_answer_head, editRegion_answeredAt_head, hlf, ih true]
          · have hlf : editRegion ans st now f (l :: editRegion ans st now f ls) =
                l :: editRegion ans st now f (editRegion ans st now f ls) := by
              conv_lhs => rw [editRegion]
              rw [if_neg h1, if_neg h2, if_neg h3, if_neg h4]
            rw [if_neg h4, hlf, ih f]

/-- Full decomposition of `updateDecisionInBody` on a document whose only
matching id line sits in a region that runs to the next strict heading. -/
lemma updateDecisionInBody_decomp (did ans st now : String) (pre : List String)
    (idL : String) (reg : List String) (hLine : String) (tail : List String)
    (hpre : ∀ l ∈ pre, isIdMatch did l = false)
    (hid : isIdMatch did idL = true)
    (hreg : ∀ l ∈ reg, isHeadingStrict l = false)
    (hh : isHeadingStrict hLine = true)
    (htail : ∀ l ∈ tail, isIdMatch did l = false) :
    updateDecisionInBody (pre ++ (idL :: (reg ++ hLine :: tail))) did ans st now =
      pre ++ (idL :: (editRegion ans st now false reg ++ hLine :: tail)) := by
  unfold updateDecisionInBody
  rw [bodyEditGo_append pre (idL :: (reg ++ hLine :: tail)) hpre,
    bodyEditGo_idline (reg ++ hLine :: tail) false false hid,
    bodyEditGo_region_cont reg hLine tail false hreg hh,
    bodyEditGo_nomatch tail false htail]

/-- Decomposition when the matched region runs to the end of the
document. -/
lemma updateDecisionInBody_decomp_end (did ans st now : String) (pre : List String)
    (idL : String) (reg : List String)
    (hpre : ∀ l ∈ pre, isIdMatch did l = false)
    (hid : isIdMatch did idL = true)
    (hreg : ∀ l ∈ reg, isHeadingStrict l = false) :
    updateDecisionInBody (pre ++ (idL :: reg)) did ans st now =
      pre ++ (idL :: editRegion ans st now false reg) := by
  unfold updateDecisionInBody
  rw [bodyEditGo_append _ _ hpre, bodyEditGo_idline _ _ _ hid,
    bodyEditGo_region _ _ hreg]

lemma parsedOf_decisions (c : List String) (p t : String) :
    (parsedOf c p t).decisions = decisionsOf (fmBody c) := rfl

lemma parsedOf_status (c : List String) (p t : String) :
    (parsedOf c p t).frontmatter.status = getStrD (fmData c) "status" "pending" := rfl

/-- A body without strict section headings splits into a single section. -/
lemma splitSecAux_noheading {body : List String}
    (h : ∀ l ∈ body, isHeadingStrict l = false) : splitSecAux body = [body] := by
  induction body with
  | nil => rfl
  | cons l ls ih =>
    unfold splitSecAux
    rw [ih (fun x hx => h x (List.mem_cons_of_mem l hx))]
    rw [h l (List.mem_cons_self l ls)]
    simp

lemma splitSections_noheading {body : List String}
    (h : ∀ l ∈ body, isHeadingStrict l = false) : splitSections body = [body] := by
  cases body with
  | nil => rfl
  | cons l ls =>
    unfold splitSections
    rw [splitSecAux_noheading h]

/-- A body without strict section headings decodes to no decisions. -/
lemma decisionsOf_noheading {body : List String}
    (h : ∀ l ∈ body, isHeadingStrict l = false) : decisionsOf body = [] := by
  unfold decisionsOf
  rw [splitSections_noheading h]
  rfl

/-! ## Joined-section normalisation: `section.trim().split('\n')` on
sections whose lines are themselves trimmed and newline-free only drops
trailing empty lines. -/

lemma joinNL_single (l : String) : joinNL [l] = l.data := by
  simp [joinNL, List.intercalate]

lemma joinNL_cons (l : String) {ls : List String} (h : ls ≠ []) :
    joinNL (l :: ls) = l.data ++ '\n' :: joinNL ls := by
  cases ls with
  | nil => exact absurd rfl h
  | cons m ms =>
    simp [joinNL, List.intercalate, List.intersperse_cons_cons]

lemma joinNL_append (as bs : List String) (ha : as ≠ []) (hb : bs ≠ []) :
    joinNL (as ++ bs) = joinNL as ++ '\n' :: joinNL bs := by
  induction as with
  | nil => exact absurd rfl ha
  | cons a as ih =>
    cases as with
    | nil => rw [List.singleton_append, joinNL_cons a hb, joinNL_single]
    | cons a2 as2 =>
      have hne : (a2 :: as2 : List String) ≠ [] := by simp
      have hne2 : ((a2 :: as2) ++ bs : List String) ≠ [] := by simp
      rw [List.cons_append, joinNL_cons a hne2, ih hne, joinNL_cons a hne]
      simp

/-- The join of nonempty-many empty lines is all newlines. -/
lemma joinNL_all_nl {es : List String} (he : ∀ l ∈ es, l = "") :
    ∀ c ∈ joinNL es, c = '\n' := by
  induction es with
  | nil => intro c hc; cases hc
  | cons e es ih =>
    intro c hc
    cases es with
    | nil =>
      rw [joinNL_single, he e (List.mem_cons_self e [])] at hc
      cases hc
    | cons e2 es2 =>
      rw [joinNL_cons e (by simp), he e (by simp)] at hc
      rw [show ("" : String).data = [] from rfl, List.nil_append] at hc
      rcases List.mem_cons.mp hc with rfl | h
      · rfl
      · exact ih (fun l hl => he l (List.mem_cons_of_mem e hl)) c h

lemma rdropWhile_append_ws (a b : List Char) (hb : ∀ c ∈ b, c.isWhitespace = true) :
    List.rdropWhile Char.isWhitespace (a ++ b) = List.rdropWhile Char.isWhitespace a := by
  rw [List.rdropWhile, List.rdropWhile, List.reverse_append, List.dropWhile_append]
  have h1 : b.reverse.dropWhile Char.isWhitespace = [] :=
    List.dropWhile_eq_nil_iff.mpr (fun x hx => hb x (List.mem_reverse.mp hx))
  simp [h1]

/-- Trim ignores an all-whitespace suffix. -/
lemma trimL_append_ws (a b : List Char) (hb : ∀ c ∈ b, c.isWhitespace = true) :
    trimL (a ++ b) = trimL a := by
  rw [trimL_eq_rdrop, trimL_eq_rdrop, List.dropWhile_append]
  by_cases h : (a.dropWhile Char.isWhitespace).isEmpty = true
  · rw [if_pos h]
    have hbdrop : b.dropWhile Char.isWhitespace = [] :=
      List.dropWhile_eq_nil_iff.mpr (fun x hx => hb x hx)
    rw [List.isEmpty_iff] at h
    rw [hbdrop, h]
  · rw [if_neg h]
    exact rdropWhile_append_ws _ _ hb

/-- A list equal to its own trim is also equal to each one-sided trim. -/
lemma trimL_eq_self_parts {x : List Char} (h : trimL x = x) :
    x.dropWhile Char.isWhitespace = x ∧ List.rdropWhile Char.isWhitespace x = x := by
  have h0 : (trimL x).length = x.length := by rw [h]
  have h1 : (trimL x).length ≤ (x.dropWhile Char.isWhitespace).length := by
    rw [trimL_eq_rdrop]
    exact (List.rdropWhile_prefix _ _).length_le
  have h2 : (x.dropWhile Char.isWhitespace).length ≤ x.length :=
    (List.dropWhile_suffix _).length_le
  have hlen : (x.dropWhile Char.isWhitespace).length = x.length :=
    le_antisymm h2 (h0 ▸ h1)
  have hd : x.dropWhile Char.isWhitespace = x :=
    (List.dropWhile_suffix _).eq_of_length hlen
  refine ⟨hd, ?_⟩
  rw [trimL_eq_rdrop, hd] at h
  exact h

/-- The head of a self-trimmed list is not whitespace. -/
lemma clean_head {c : Char} {cs : List Char} (h : trimL (c :: cs) = c :: cs) :
    c.isWhitespace = false := by
  have hd := (trimL_eq_self_parts h).1
  by_cases hw : c.isWhitespace = true
  · rw [List.dropWhile_cons, if_pos hw] at hd
    have hlen := congrArg List.length hd
    have hle := (List.dropWhile_suffix (p := Char.isWhitespace) (l := cs)).length_le
    simp at hlen
    omega
  · simpa using hw

/-- The last element of a self-trimmed list is not whitespace. -/
lemma clean_last {x : List Char} (h : trimL x = x) (hne : x ≠ []) :
    (x.getLast hne).isWhitespace = false := by
  have hr := (trimL_eq_self_parts h).2
  simpa using List.rdropWhile_eq_self_iff.mp hr hne

/-- A nonempty list with non-whitespace head and last is self-trimmed. -/
lemma trimL_eq_self_of_ends {x : List Char} (hne : x ≠ [])
    (hh : ∀ c cs, x = c :: cs → c.isWhitespace = false)
    (hl : (x.getLast hne).isWhitespace = false) : trimL x = x := by
  rw [trimL_eq_rdrop, dropWhile_of_neg_head hh, List.rdropWhile_eq_self_iff.mpr]
  intro hne2
  simp [hl]

lemma data_ne_nil {s : String} (h : s ≠ "") : s.data ≠ [] := by
  intro hd
  have hm := mk_data s
  rw [hd] at hm
  exact h hm.symm

/-- Removal of the trailing run of empty lines, the effect of the
section-level `trim()` on a section with otherwise clean lines. -/
def dropTrailingEmpty (ls : List String) : List String :=
  (ls.reverse.dropWhile (· = "")).reverse

lemma dropTrailingEmpty_cons (l : String) (hl : l ≠ "") (rest : List String) :
    dropTrailingEmpty (l :: rest) = l :: dropTrailingEmpty rest := by
  unfold dropTrailingEmpty
  rw [List.reverse_cons, List.dropWhile_append]
  by_cases h : ((rest.reverse.dropWhile (· = "")).isEmpty) = true
  · rw [if_pos h]
    rw [List.isEmpty_iff] at h
    rw [h]
    simp [List.dropWhile_cons, hl]
  · rw [if_neg h]
    simp

lemma dropTrailingEmpty_spec (ls : List String) :
    ∃ es, ls = dropTrailingEmpty ls ++ es ∧ ∀ l ∈ es, l = "" := by
  refine ⟨(ls.reverse.takeWhile (· = "")).reverse, ?_, ?_⟩
  · have h1 : ls.reverse = ls.reverse.takeWhile (· = "") ++ ls.reverse.dropWhile (· = "") :=
      (List.takeWhile_append_dropWhile _ _).symm
    have h2 := congrArg List.reverse h1
    rw [List.reverse_reverse, List.reverse_append] at h2
    exact h2
  · intro l hl
    rw [List.mem_reverse] at hl
    simpa using List.mem_takeWhile_imp hl

lemma dropTrailingEmpty_sub (ls : List String) :
    ∀ l ∈ dropTrailingEmpty ls, l ∈ ls := by
  intro l hl
  unfold dropTrailingEmpty at hl
  rw [List.mem_reverse] at hl
  obtain ⟨u, hu⟩ := List.dropWhile_suffix (l := ls.reverse) (p := (· = ""))
  rw [← List.mem_reverse, ← hu]
  exact List.mem_append_right _ hl

lemma dropTrailingEmpty_last (ls : List String) :
    ∀ hh : dropTrailingEmpty ls ≠ [], (dropTrailingEmpty ls).getLast hh ≠ "" := by
  intro hh
  cases hc : ls.reverse.dropWhile (· = "") with
  | nil =>
    exfalso
    apply hh
    show (ls.reverse.dropWhile (· = "")).reverse = []
    rw [hc]
    rfl
  | cons c cs =>
    have hcne : c ≠ "" := by simpa using dropWhile_head_not hc
    have hx : dropTrailingEmpty ls = (c :: cs).reverse := by
      unfold dropTrailingEmpty
      rw [hc]
    have h2 : ((c :: cs).reverse : List String) ≠ [] := by simp
    rw [List.getLast_congr hh h2 hx, List.getLast_reverse]
    simpa using hcne

/-- Trimming a joined section whose lines are individually clean and whose
first line is nonempty drops exactly the trailing empty lines. -/
lemma joinNL_trim {ls : List String}
    (hclean : ∀ l ∈ ls, trimL l.data = l.data)
    (l0 : String) (rest : List String) (hcons : ls = l0 :: rest) (hl0 : l0 ≠ "") :
    trimL (joinNL ls) = joinNL (dropTrailingEmpty ls) := by
  obtain ⟨es, hdecomp, hes⟩ := dropTrailingEmpty_spec ls
  have hdte : dropTrailingEmpty ls = l0 :: dropTrailingEmpty rest := by
    rw [hcons]
    exact dropTrailingEmpty_cons l0 hl0 rest
  have hdne : dropTrailingEmpty ls ≠ [] := by rw [hdte]; simp
  have hstep1 : trimL (joinNL ls) = trimL (joinNL (dropTrailingEmpty ls)) := by
    cases hces : es with
    | nil =>
      conv_lhs => rw [hdecomp, hces, List.append_nil]
    | cons e es2 =>
      conv_lhs => rw [hdecomp, hces, joinNL_append _ _ hdne (by simp)]
      apply trimL_append_ws
      intro c hc
      rcases List.mem_cons.mp hc with rfl | hc2
      · decide
      · rw [joinNL_all_nl (fun l hl => hes l (hces ▸ hl)) c hc2]
        decide
  rw [hstep1]
  have hdclean : ∀ l ∈ dropTrailingEmpty ls, trimL l.data = l.data :=
    fun l hl => hclean l (dropTrailingEmpty_sub ls l hl)
  have hl0d : l0.data ≠ [] := data_ne_nil hl0
  have hpre : ∃ sfx, joinNL (dropTrailingEmpty ls) = l0.data ++ sfx := by
    rw [hdte]
    cases hdr : dropTrailingEmpty rest with
    | nil => exact ⟨[], by rw [joinNL_single, List.append_nil]⟩
    | cons d ds =>
      exact ⟨'\n' :: joinNL (d :: ds), joinNL_cons l0 (by simp)⟩
  obtain ⟨sfx, hsfx⟩ := hpre
  have hjne : joinNL (dropTrailingEmpty ls) ≠ [] := by
    rw [hsfx]
    cases hc0 : l0.data with
    | nil => exact absurd hc0 hl0d
    | cons c cs => simp
  apply trimL_eq_self_of_ends hjne
  · intro c cs hc
    cases hc0 : l0.data with
    | nil => exact absurd hc0 hl0d
    | cons c0 cs0 =>
      rw [hsfx, hc0] at hc
      rw [List.cons_append] at hc
      cases hc
      have hcl := hclean l0 (hcons ▸ List.mem_cons_self l0 rest)
      rw [hc0] at hcl
      exact clean_head hcl
  · rcases List.eq_nil_or_concat (dropTrailingEmpty ls) with hnil | ⟨ys, y, hconc⟩
    · exact absurd hnil hdne
    · rw [List.concat_eq_append] at hconc
      have hyne : y ≠ "" := by
        have hlc := dropTrailingEmpty_last ls hdne
        have h2 : (ys ++ [y] : List String) ≠ [] := by simp
        rw [List.getLast_congr hdne h2 hconc] at hlc
        simpa using hlc
      have hydne : y.data ≠ [] := data_ne_nil hyne
      have hyclean : trimL y.data = y.data :=
        hdclean y (by rw [hconc]; exact List.mem_append_right _ (List.mem_cons_self y []))
      have hjval : joinNL (dropTrailingEmpty ls) = joinNL ys ++ '\n' :: y.data ∨
          joinNL (dropTrailingEmpty ls) = y.data := by
        cases hys : ys with
        | nil => right; rw [hconc, hys, List.nil_append, joinNL_single]
        | cons y0 ys0 =>
          left
          rw [hconc, hys, joinNL_append _ _ (by simp) (by simp), joinNL_single]
      rcases hjval with hj | hj
      · have hlast : (joinNL (dropTrailingEmpty ls)).getLast hjne =
            y.data.getLast hydne := by
          rw [List.getLast_congr hjne (by simp) hj]
          rw [List.getLast_append]
          have hie : ('\n' :: y.data).isEmpty = false := by simp
          rw [dif_neg (by simp [hie])]
          exact List.getLast_cons hydne
        rw [hlast]
        exact clean_last hyclean hydne
      · have hlast : (joinNL (dropTrailingEmpty ls)).getLast hjne =
            y.data.getLast hydne := List.getLast_congr hjne hydne hj
        rw [hlast]
        exact clean_last hyclean hydne

/-- Splitting a join at newlines recovers the lines when none of them
contains a newline. -/
lemma splitNL_joinNL {ls : List String} (h : ∀ l ∈ ls, '\n' ∉ l.data)
    (hne : ls ≠ []) : splitNL (joinNL ls) = ls := by
  show ((List.intercalate ['\n'] (ls.map String.data)).splitOn '\n').map String.mk = ls
  have hsp := List.splitOn_intercalate (ls.map String.data) '\n'
    (by
      intro l hl
      obtain ⟨a, ha, rfl⟩ := List.mem_map.mp hl
      exact h a ha)
    (by simpa using hne)
  rw [hsp, List.map_map]
  have hid : ∀ a ∈ ls, (String.mk ∘ String.data) a = a := fun a _ => mk_data a
  rw [List.map_congr_left hid]
  exact List.map_id ls

/-- `secLines` on a section with clean lines and a nonempty first line:
only trailing empty lines are dropped. -/
lemma secLines_canonical {ls : List String}
    (hclean : ∀ l ∈ ls, trimL l.data = l.data ∧ '\n' ∉ l.data)
    {l0 : String} {rest : List String} (hcons : ls = l0 :: rest) (hl0 : l0 ≠ "") :
    secLines ls = dropTrailingEmpty ls := by
  unfold secLines
  rw [joinNL_trim (fun l hl => (hclean l hl).1) l0 rest hcons hl0]
  have hdte : dropTrailingEmpty ls = l0 :: dropTrailingEmpty rest := by
    rw [hcons]
    exact dropTrailingEmpty_cons l0 hl0 rest
  apply splitNL_joinNL
  · intro l hl
    exact (hclean l (dropTrailingEmpty_sub ls l hl)).2
  · rw [hdte]
    simp

/-! ## Section parse core -/

/-- The initial parser state of `parseDecisionSection`. -/
def pdsInit : SecState := ⟨⟨"", "pending", none, none, "", [], false⟩, false, []⟩

/-- The decision assembled from the final parser state. -/
def pdsFinal (stF : SecState) : Option Decision :=
  let d := { stF.d with context := trimS ⟨List.intercalate [' '] (stF.ctx.map String.data)⟩ }
  if d.id = "" then none else some d

/-- The body of `parseDecisionSection` after line normalisation: the title
check on the first line and the state fold over the remaining lines. -/
def parseSecCore (l0 : String) (rest : List String) : Option Decision :=
  if matchSectionTitle l0 then pdsFinal (rest.foldl secStep pdsInit) else none

lemma secStep_empty (st : SecState) : secStep st "" = st := by
  rcases st with ⟨d, io, ctx⟩
  cases io <;> rfl

lemma foldl_secStep_empty :
    ∀ {es : List String}, (∀ l ∈ es, l = "") →
    ∀ st : SecState, es.foldl secStep st = st := by
  intro es
  induction es with
  | nil => intro _ st; rfl
  | cons e es ih =>
    intro hes st
    rw [List.foldl_cons, hes e (List.mem_cons_self e es), secStep_empty]
    exact ih (fun l hl => hes l (List.mem_cons_of_mem e hl)) st

/-- On a canonical section (clean newline-free lines, nonempty first line)
`parseDecisionSection` is the title check plus the state fold: the
section-level `trim()` only discards trailing empty lines, which are
no-ops for the fold. -/
lemma parseDecisionSection_canonical {sec : List String} {l0 : String} {rest : List String}
    (hclean : ∀ l ∈ sec, trimL l.data = l.data ∧ '\n' ∉ l.data)
    (hcons : sec = l0 :: rest) (hl0 : l0 ≠ "") :
    parseDecisionSection sec = parseSecCore l0 rest := by
  obtain ⟨es, hdecomp, hes⟩ := dropTrailingEmpty_spec rest
  have hred : parseDecisionSection sec = parseSecCore l0 (dropTrailingEmpty rest) := by
    unfold parseDecisionSection
    rw [secLines_canonical hclean hcons hl0, hcons, dropTrailingEmpty_cons l0 hl0 rest]
    rfl
  rw [hred]
  unfold parseSecCore
  by_cases ht : matchSectionTitle l0 = true
  · rw [if_pos ht, if_pos ht]
    have hfold : (dropTrailingEmpty rest).foldl secStep pdsInit =
        rest.foldl secStep pdsInit := by
      conv_rhs => rw [hdecomp]
      rw [List.foldl_append, foldl_secStep_empty hes]
    exact congrArg pdsFinal hfold
  · rw [if_neg ht, if_neg ht]

/-! ## Single-step action of the parser on writer-produced lines -/

lemma startsWith_false_head {l p : String} {c : Char} {t : List Char}
    (hl : l.data = c :: t) {c' : Char} {ps : List Char} (hp : p.data = c' :: ps)
    (hne : c' ≠ c) : startsWithS l p = false := by
  show p.data.isPrefixOf l.data = false
  rw [hl, hp]
  exact not_prefix_of_head_ne hne

lemma trimL_cons_ws {c : Char} (x : List Char) (hw : c.isWhitespace = true) :
    trimL (c :: x) = trimL x := by
  rw [trimL_eq_rdrop, trimL_eq_rdrop, List.dropWhile_cons, if_pos hw]

/-- A key-value line with a clean nonempty value is its own trim. -/
lemma trimS_key_line (k v : String) {c : Char} {t : List Char}
    (hk : k.data = c :: t) (hcw : c.isWhitespace = false)
    (hv : trimL v.data = v.data) (hvne : v ≠ "") :
    trimS (k ++ v) = k ++ v := by
  show (⟨trimL (k ++ v).data⟩ : String) = k ++ v
  rw [data_append]
  have hne : k.data ++ v.data ≠ [] := by rw [hk]; simp
  have heq : trimL (k.data ++ v.data) = k.data ++ v.data := by
    apply trimL_eq_self_of_ends hne
    · intro c2 cs2 hc2
      rw [hk, List.cons_append] at hc2
      cases hc2
      exact hcw
    · have hvd : v.data ≠ [] := data_ne_nil hvne
      have hgl : (k.data ++ v.data).getLast hne = v.data.getLast hvd := by
        rw [List.getLast_append]
        rw [dif_neg (by simp [List.isEmpty_iff, hvd])]
      rw [hgl]
      exact clean_last hv hvd
  rw [heq, ← data_append, mk_data]

lemma trimS_space_val (v : String) (hv : trimL v.data = v.data) :
    trimS ⟨' ' :: v.data⟩ = v := by
  show (⟨trimL (' ' :: v.data)⟩ : String) = v
  rw [trimL_cons_ws _ (by decide), hv, mk_data]

lemma dropChars7_status (v : String) :
    dropChars 7 ("status: " ++ v) = ⟨' ' :: v.data⟩ := by
  show (⟨("status: " ++ v).data.drop 7⟩ : String) = _
  rw [data_append]
  rfl

lemma dropChars7_answer (v : String) :
    dropChars 7 ("answer: " ++ v) = ⟨' ' :: v.data⟩ := by
  show (⟨("answer: " ++ v).data.drop 7⟩ : String) = _
  rw [data_append]
  rfl

lemma dropChars12_answeredAt (v : String) :
    dropChars 12 ("answered_at: " ++ v) = ⟨' ' :: v.data⟩ := by
  show (⟨("answered_at: " ++ v).data.drop 12⟩ : String) = _
  rw [data_append]
  rfl

lemma status_prefix_self (v : String) :
    startsWithS ("status: " ++ v) "status:" = true := by
  show "status:".data.isPrefixOf ("status: " ++ v).data = true
  refine List.isPrefixOf_iff_prefix.mpr ⟨' ' :: v.data, ?_⟩
  rw [data_append]
  rfl

lemma answer_prefix_self (v : String) :
    startsWithS ("answer: " ++ v) "answer:" = true := by
  show "answer:".data.isPrefixOf ("answer: " ++ v).data = true
  refine List.isPrefixOf_iff_prefix.mpr ⟨' ' :: v.data, ?_⟩
  rw [data_append]
  rfl

lemma answeredAt_prefix_self (v : String) :
    startsWithS ("answered_at: " ++ v) "answered_at:" = true := by
  show "answered_at:".data.isPrefixOf ("answered_at: " ++ v).data = true
  refine List.isPrefixOf_iff_prefix.mpr ⟨' ' :: v.data, ?_⟩
  rw [data_append]
  rfl

/-- The parser step on a writer-produced `status:` line writes that status
value into the state. -/
lemma secStep_status_val (st : SecState) (v : String)
    (hv : trimL v.data = v.data) (hvne : v ≠ "") :
    secStep st ("status: " ++ v) = { st with d := { st.d with status := v } } := by
  have hline : trimS ("status: " ++ v) = "status: " ++ v :=
    trimS_key_line "status: " v rfl (by decide) hv hvne
  have h0 : startsWithS ("status: " ++ v) "id:" = false :=
    startsWith_false_head (status_line_data v) rfl (by decide)
  have h1 := status_prefix_self v
  conv_lhs => unfold secStep
  rw [hline]
  simp only [h0, h1, Bool.false_eq_true, if_false, if_true]
  rw [dropChars7_status, trimS_space_val v hv]

/-- The parser step on a writer-produced `answer:` line records that
answer. -/
lemma secStep_answer_val (st : SecState) (v : String)
    (hv : trimL v.data = v.data) (hvne : v ≠ "") (hvnull : v ≠ "null") :
    secStep st ("answer: " ++ v) = { st with d := { st.d with answer := some v } } := by
  have hline : trimS ("answer: " ++ v) = "answer: " ++ v :=
    trimS_key_line "answer: " v rfl (by decide) hv hvne
  have h0 : startsWithS ("answer: " ++ v) "id:" = false :=
    startsWith_false_head (answer_line_data v) rfl (by decide)
  have h1 : startsWithS ("answer: " ++ v) "status:" = false :=
    startsWith_false_head (answer_line_data v) rfl (by decide)
  have h2 := answer_prefix_self v
  conv_lhs => unfold secStep
  rw [hline]
  simp only [h0, h1, h2, Bool.false_eq_true, if_false, if_true]
  rw [dropChars7_answer, trimS_space_val v hv]
  simp [hvne, hvnull]

/-- The parser step on a writer-produced `answered_at:` line records that
timestamp. -/
lemma secStep_answeredAt_val (st : SecState) (v : String)
    (hv : trimL v.data = v.data) (hvne : v ≠ "") (hvnull : v ≠ "null") :
    secStep st ("answered_at: " ++ v) =
      { st with d := { st.d with answeredAt := some v } } := by
  have hline : trimS ("answered_at: " ++ v) = "answered_at: " ++ v :=
    trimS_key_line "answered_at: " v rfl (by decide) hv hvne
  have h0 : startsWithS ("answered_at: " ++ v) "id:" = false :=
    startsWith_false_head (answeredAt_line_data v) rfl (by decide)
  have h1 : startsWithS ("answered_at: " ++ v) "status:" = false :=
    startsWith_false_head (answeredAt_line_data v) rfl (by decide)
  have h2 : startsWithS ("answered_at: " ++ v) "answer:" = false := by
    show "answer:".data.isPrefixOf ("answered_at: " ++ v).data = false
    rw [data_append]
    rfl
  have h3 := answeredAt_prefix_self v
  conv_lhs => unfold secStep
  rw [hline]
  simp only [h0, h1, h2, h3, Bool.false_eq_true, if_false, if_true]
  rw [dropChars12_answeredAt, trimS_space_val v hv]
  simp [hvne, hvnull]

/-- The parser step on any line whose trim starts with `status:`. -/
lemma secStep_of_status {l : String} (st : SecState)
    (h : startsWithS (trimS l) "status:" = true) :
    secStep st l =
      { st with d := { st.d with status := trimS (dropChars 7 (trimS l)) } } := by
  have h0 : startsWithS (trimS l) "id:" = false := startsWith_disjoint h (by decide)
  conv_lhs => unfold secStep
  simp only [h0, h, Bool.false_eq_true, if_false, if_true]

/-- The parser step on any line whose trim starts with `answer:`. -/
lemma secStep_of_answer {l : String} (st : SecState)
    (h : startsWithS (trimS l) "answer:" = true) :
    secStep st l = { st with d := { st.d with answer :=
      (if (trimS (dropChars 7 (trimS l)) = "null" ∨ trimS (dropChars 7 (trimS l)) = "")
      then none else some (trimS (dropChars 7 (trimS l)))) } } := by
  have h0 : startsWithS (trimS l) "id:" = false := startsWith_disjoint h (by decide)
  have h1 : startsWithS (trimS l) "status:" = false := startsWith_disjoint h (by decide)
  conv_lhs => unfold secStep
  simp only [h0, h1, h, Bool.false_eq_true, if_false, if_true]

/-- The parser step on any line whose trim starts with `answered_at:`. -/
lemma secStep_of_answeredAt {l : String} (st : SecState)
    (h : startsWithS (trimS l) "answered_at:" = true) :
    secStep st l = { st with d := { st.d with answeredAt :=
      (if (trimS (dropChars 12 (trimS l)) = "null" ∨ trimS (dropChars 12 (trimS l)) = "")
      then none else some (trimS (dropChars 12 (trimS l)))) } } := by
  have h0 : startsWithS (trimS l) "id:" = false := startsWith_disjoint h (by decide)
  have h1 : startsWithS (trimS l) "status:" = false := startsWith_disjoint h (by decide)
  have h2 : startsWithS (trimS l) "answer:" = false := startsWith_disjoint h (by decide)
  conv_lhs => unfold secStep
  simp only [h0, h1, h2, h, Bool.false_eq_true, if_false, if_true]

/-- A step on a line that is not a `status:` line keeps the status. -/
lemma secStep_status_frame (st : SecState) (l : String)
    (h : startsWithS (trimS l) "status:" = false) :
    (secStep st l).d.status = st.d.status := by
  conv_lhs => rw [secStep]
  simp only [h, Bool.false_eq_true, if_false]
  split_ifs <;> try rfl
  cases matchOptionKey (trimS l) <;> rfl

/-- A step on a line that is not an `answer:` line keeps the answer. -/
lemma secStep_answer_frame (st : SecState) (l : String)
    (h : startsWithS (trimS l) "answer:" = false) :
    (secStep st l).d.answer = st.d.answer := by
  conv_lhs => rw [secStep]
  simp only [h, Bool.false_eq_true, if_false]
  split_ifs <;> try rfl
  cases matchOptionKey (trimS l) <;> rfl

/-! ## Section split structure -/

lemma splitSecAux_ne_nil (ls : List String) : splitSecAux ls ≠ [] := by
  cases ls with
  | nil => simp [splitSecAux]
  | cons l ls =>
    unfold splitSecAux
    cases h : splitSecAux ls with
    | nil => simp
    | cons g gs => by_cases hh : isHeadingStrict l = true <;> simp [hh]

/-- A heading-free prefix joins the first group of the split. -/
lemma splitSecAux_append_nh (xs ys : List String)
    (hxs : ∀ l ∈ xs, isHeadingStrict l = false) :
    ∃ g gs, splitSecAux ys = g :: gs ∧ splitSecAux (xs ++ ys) = (xs ++ g) :: gs := by
  induction xs with
  | nil =>
    cases h : splitSecAux ys with
    | nil => exact absurd h (splitSecAux_ne_nil ys)
    | cons g gs => exact ⟨g, gs, rfl, by simp [h]⟩
  | cons x xs ih =>
    obtain ⟨g, gs, h1, h2⟩ := ih (fun l hl => hxs l (List.mem_cons_of_mem x hl))
    refine ⟨g, gs, h1, ?_⟩
    rw [List.cons_append]
    unfold splitSecAux
    rw [h2, hxs x (List.mem_cons_self x xs)]
    simp

/-- A heading starts a fresh group. -/
lemma splitSecAux_heading_cons (h : String) (ys : List String)
    (hh : isHeadingStrict h = true) {g : List String} {gs : List (List String)}
    (hy : splitSecAux ys = g :: gs) :
    splitSecAux (h :: ys) = [] :: (h :: g) :: gs := by
  unfold splitSecAux
  rw [hy, hh]
  simp

/-- A well-formed section: a strict heading followed by non-heading
lines. -/
def WFSection (s : List String) : Prop :=
  ∃ h t, s = h :: t ∧ isHeadingStrict h = true ∧ ∀ l ∈ t, isHeadingStrict l = false

instance : DecidablePred WFSection := fun s =>
  decidable_of_iff
    (s ≠ [] ∧ isHeadingStrict (s.headD "") = true ∧
      ∀ l ∈ s.tail, isHeadingStrict l = false)
    (by
      cases s with
      | nil => simp [WFSection]
      | cons h t =>
        constructor
        · rintro ⟨-, h1, h2⟩
          exact ⟨h, t, rfl, h1, h2⟩
        · rintro ⟨h2, t2, he, h1, hl⟩
          obtain ⟨rfl, rfl⟩ := List.cons.inj he
          exact ⟨by simp, h1, hl⟩)

/-- The split of a concatenation of well-formed sections. -/
lemma splitSecAux_flatten (secs : List (List String)) (hne : secs ≠ [])
    (hsecs : ∀ s ∈ secs, WFSection s) :
    splitSecAux secs.flatten = [] :: secs := by
  induction secs with
  | nil => exact absurd rfl hne
  | cons s rest ih =>
    obtain ⟨h, t, hs, hh, ht⟩ := hsecs s (List.mem_cons_self s rest)
    subst hs
    cases rest with
    | nil =>
      rw [List.flatten_cons, List.flatten_nil, List.append_nil]
      rw [splitSecAux_heading_cons h t hh (splitSecAux_noheading ht)]
    | cons r rs =>
      have ih2 : splitSecAux ((r :: rs).flatten) = [] :: r :: rs :=
        ih (by simp) (fun x hx => hsecs x (List.mem_cons_of_mem _ hx))
      rw [List.flatten_cons, List.cons_append]
      obtain ⟨g, gs, h1, h2⟩ := splitSecAux_append_nh t ((r :: rs).flatten) ht
      rw [ih2] at h1
      obtain ⟨rfl, rfl⟩ := List.cons.inj h1.symm
      rw [splitSecAux_heading_cons h (t ++ (r :: rs).flatten) hh h2]
      simp

/-- `splitSections` on a body made of a nonempty heading-free context part
followed by well-formed sections: the context is group 0, each section is
one further group. -/
lemma splitSections_ctx (ctx0 : List String) (secs : List (List String))
    (hctxne : ctx0 ≠ []) (hctx : ∀ l ∈ ctx0, isHeadingStrict l = false)
    (hsecs : ∀ s ∈ secs, WFSection s) :
    splitSections (ctx0 ++ secs.flatten) = ctx0 :: secs := by
  cases secs with
  | nil =>
    rw [List.flatten_nil, List.append_nil]
    exact splitSections_noheading hctx
  | cons s rest =>
    have haux : splitSecAux (ctx0 ++ (s :: rest).flatten) = ctx0 :: s :: rest := by
      obtain ⟨g, gs, h1, h2⟩ := splitSecAux_append_nh ctx0 ((s :: rest).flatten) hctx
      rw [splitSecAux_flatten (s :: rest) (by simp) hsecs] at h1
      obtain ⟨rfl, rfl⟩ := List.cons.inj h1.symm
      rw [h2, List.append_nil]
    cases hc : ctx0 with
    | nil => exact absurd hc hctxne
    | cons c cs =>
      rw [hc] at haux
      rw [List.cons_append] at haux ⊢
      unfold splitSections
      rw [haux]

/-- The decision list of such a body: the decisions parsed from the
sections, the context group contributing nothing. -/
lemma decisionsOf_ctx (ctx0 : List String) (secs : List (List String))
    (hctxne : ctx0 ≠ []) (hctx : ∀ l ∈ ctx0, isHeadingStrict l = false)
    (hsecs : ∀ s ∈ secs, WFSection s) :
    decisionsOf (ctx0 ++ secs.flatten) = secs.filterMap parseDecisionSection := by
  unfold decisionsOf
  rw [splitSections_ctx ctx0 secs hctxne hctx hsecs]
  rfl

/-! ## Paired fold relation: parse of an edited region vs the original -/

/-- Relation between the parse state of a region and the parse state of
its rewritten form: all components agree except `status`, `answer`,
`answeredAt`, each either carried over or set to the written value. -/
def EditRel (ans now : String) (s t : SecState) : Prop :=
  t.d.id = s.d.id ∧ t.d.options = s.d.options ∧ t.d.allowCustom = s.d.allowCustom ∧
  t.ctx = s.ctx ∧ t.inOptions = s.inOptions ∧ t.d.context = s.d.context ∧
  (t.d.status = s.d.status ∨ t.d.status = "answered") ∧
  (t.d.answer = s.d.answer ∨ t.d.answer = some ans) ∧
  (t.d.answeredAt = s.d.answeredAt ∨ t.d.answeredAt = some now)

lemma editRel_refl (ans now : String) (s : SecState) : EditRel ans now s s :=
  ⟨rfl, rfl, rfl, rfl, rfl, rfl, Or.inl rfl, Or.inl rfl, Or.inl rfl⟩

/-- The step's effect on `d.id`, as a function of the line and the prior
state. -/
lemma secStep_id_eq (st : SecState) (l : String) :
    (secStep st l).d.id =
      if startsWithS (trimS l) "id:" = true
      then trimS (dropChars 3 (trimS l)) else st.d.id := by
  unfold secStep
  dsimp only
  split_ifs <;> try rfl
  all_goals cases matchOptionKey (trimS l) <;> rfl

/-- The step's effect on `d.status`. -/
lemma secStep_status_eq (st : SecState) (l : String) :
    (secStep st l).d.status =
      if startsWithS (trimS l) "id:" = true then st.d.status
      else if startsWithS (trimS l) "status:" = true
      then trimS (dropChars 7 (trimS l)) else st.d.status := by
  unfold secStep
  dsimp only
  split_ifs <;> try rfl
  all_goals cases matchOptionKey (trimS l) <;> rfl

/-- The step's effect on `d.answer`. -/
lemma secStep_answer_eq (st : SecState) (l : String) :
    (secStep st l).d.answer =
      if startsWithS (trimS l) "id:" = true then st.d.answer
      else if startsWithS (trimS l) "status:" = true then st.d.answer
      else if startsWithS (trimS l) "answer:" = true
      then (if (trimS (dropChars 7 (trimS l)) = "null" ∨ trimS (dropChars 7 (trimS l)) = "")
        then none else some (trimS (dropChars 7 (trimS l))))
      else st.d.answer := by
  unfold secStep
  dsimp only
  split_ifs <;> try rfl
  all_goals cases matchOptionKey (trimS l) <;> rfl

/-- The step's effect on `d.answeredAt`. -/
lemma secStep_answeredAt_eq (st : SecState) (l : String) :
    (secStep st l).d.answeredAt =
      if startsWithS (trimS l) "id:" = true then st.d.answeredAt
      else if startsWithS (trimS l) "status:" = true then st.d.answeredAt
      else if startsWithS (trimS l) "answer:" = true then st.d.answeredAt
      else if startsWithS (trimS l) "answered_at:" = true
      then (if (trimS (dropChars 12 (trimS l)) = "null" ∨ trimS (dropChars 12 (trimS l)) = "")
        then none else some (trimS (dropChars 12 (trimS l))))
      else st.d.answeredAt := by
  unfold secStep
  dsimp only
  split_ifs <;> try rfl
  all_goals cases matchOptionKey (trimS l) <;> rfl

/-- The step's effect on `d.allowCustom`. -/
lemma secStep_allowCustom_eq (st : SecState) (l : String) :
    (secStep st l).d.allowCustom =
      if startsWithS (trimS l) "id:" = true then st.d.allowCustom
      else if startsWithS (trimS l) "status:" = true then st.d.allowCustom
      else if startsWithS (trimS l) "answer:" = true then st.d.allowCustom
      else if startsWithS (trimS l) "answered_at:" = true then st.d.allowCustom
      else if startsWithS (trimS l) "allow_custom:" = true
      then decide (trimS (dropChars 13 (trimS l)) = "true")
      else st.d.allowCustom := by
  unfold secStep
  dsimp only
  split_ifs <;> try rfl
  all_goals cases matchOptionKey (trimS l) <;> rfl

/-- The step never touches `d.context`. -/
lemma secStep_dcontext_eq (st : SecState) (l : String) :
    (secStep st l).d.context = st.d.context := by
  unfold secStep
  dsimp only
  split_ifs <;> try rfl
  all_goals cases matchOptionKey (trimS l) <;> rfl

set_option maxHeartbeats 1000000 in
/-- The step's effect on `d.options` depends only on the line and the
`inOptions` flag. -/
lemma secStep_options_eq (st : SecState) (l : String) :
    (secStep st l).d.options =
      if startsWithS (trimS l) "id:" = true then st.d.options
      else if startsWithS (trimS l) "status:" = true then st.d.options
      else if startsWithS (trimS l) "answer:" = true then st.d.options
      else if startsWithS (trimS l) "answered_at:" = true then st.d.options
      else if startsWithS (trimS l) "allow_custom:" = true then st.d.options
      else if startsWithS (trimS l) "**Context:**" = true then st.d.options
      else if startsWithS (trimS l) "**Options:**" = true then st.d.options
      else if (st.inOptions = true ∧ startsWithS (trimS l) "-" = true)
      then st.d.options ++ ((matchOptionKey (trimS l)).map (fun k => [k])).getD []
      else st.d.options := by
  unfold secStep
  dsimp only
  split_ifs <;> try rfl
  all_goals cases matchOptionKey (trimS l) <;> simp

set_option maxHeartbeats 1000000 in
/-- The step's effect on the `inOptions` flag. -/
lemma secStep_inOptions_eq (st : SecState) (l : String) :
    (secStep st l).inOptions =
      if startsWithS (trimS l) "id:" = true then st.inOptions
      else if startsWithS (trimS l) "status:" = true then st.inOptions
      else if startsWithS (trimS l) "answer:" = true then st.inOptions
      else if startsWithS (trimS l) "answered_at:" = true then st.inOptions
      else if startsWithS (trimS l) "allow_custom:" = true then st.inOptions
      else if startsWithS (trimS l) "**Context:**" = true then false
      else if startsWithS (trimS l) "**Options:**" = true then true
      else st.inOptions := by
  unfold secStep
  dsimp only
  split_ifs <;> try rfl
  all_goals cases matchOptionKey (trimS l) <;> rfl

set_option maxHeartbeats 1000000 in
/-- The step's effect on the collected context lines. -/
lemma secStep_ctx_eq (st : SecState) (l : String) :
    (secStep st l).ctx =
      if startsWithS (trimS l) "id:" = true then st.ctx
      else if startsWithS (trimS l) "status:" = true then st.ctx
      else if startsWithS (trimS l) "answer:" = true then st.ctx
      else if startsWithS (trimS l) "answered_at:" = true then st.ctx
      else if startsWithS (trimS l) "allow_custom:" = true then st.ctx
      else if startsWithS (trimS l) "**Context:**" = true
      then st.ctx ++ [trimS (dropChars 12 (trimS l))]
      else if startsWithS (trimS l) "**Options:**" = true then st.ctx
      else if (st.inOptions = true ∧ startsWithS (trimS l) "-" = true) then st.ctx
      else if ((¬ st.inOptions = true) ∧ trimS l ≠ "" ∧
        (¬ startsWithS (trimS l) "**" = true) ∧ (¬ startsWithS (trimS l) "-" = true))
      then st.ctx ++ [trimS l]
      else st.ctx := by
  unfold secStep
  dsimp only
  split_ifs <;> try rfl
  all_goals cases matchOptionKey (trimS l) <;> rfl

/-- One identical parser step preserves the relation. -/
lemma secStep_congr {ans now : String} {s t : SecState} (l : String)
    (h : EditRel ans now s t) : EditRel ans now (secStep s l) (secStep t l) := by
  obtain ⟨hid, hopt, hac, hctx, hio, hdctx, hst, hans, haat⟩ := h
  refine ⟨?_, ?_, ?_, ?_, ?_, ?_, ?_, ?_, ?_⟩
  · rw [secStep_id_eq, secStep_id_eq, hid]
  · rw [secStep_options_eq, secStep_options_eq, hopt, hio]
  · rw [secStep_allowCustom_eq, secStep_allowCustom_eq, hac]
  · rw [secStep_ctx_eq, secStep_ctx_eq, hctx, hio]
  · rw [secStep_inOptions_eq, secStep_inOptions_eq, hio]
  · rw [secStep_dcontext_eq, secStep_dcontext_eq, hdctx]
  · rw [secStep_status_eq, secStep_status_eq]
    split_ifs with h1 h2
    · exact hst
    · exact Or.inl rfl
    · exact hst
  · rw [secStep_answer_eq, secStep_answer_eq]
    split_ifs with h1 h2 h3 h4
    · exact hans
    · exact hans
    · exact Or.inl rfl
    · exact Or.inl rfl
    · exact hans
  · rw [secStep_answeredAt_eq, secStep_answeredAt_eq]
    split_ifs with h1 h2 h3 h4 h5
    · exact haat
    · exact haat
    · exact haat
    · exact Or.inl rfl
    · exact Or.inl rfl
    · exact haat

/-- Folding the parser over a rewritten region, against folding it over the
original region: the relation holds at the end. -/
lemma editRegion_fold_rel {ans now : String}
    (hans : trimL ans.data = ans.data) (hansne : ans ≠ "") (hansnull : ans ≠ "null")
    (hnow : trimL now.data = now.data) (hnowne : now ≠ "") (hnownull : now ≠ "null") :
    ∀ (reg : List String) (s t : SecState) (found : Bool), EditRel ans now s t →
    EditRel ans now (reg.foldl secStep s)
      ((editRegion ans "answered" now found reg).foldl secStep t) := by
  intro reg
  induction reg with
  | nil => intro s t found h; exact h
  | cons l ls ih =>
    intro s t found h
    obtain ⟨hid, hopt, hac, hctx, hio, hdctx, hst, hans2, haat⟩ := h
    by_cases h1 : startsWithS (trimS l) "status:" = true
    · have he : editRegion ans "answered" now found (l :: ls) =
          ("status: " ++ "answered") :: editRegion ans "answered" now found ls := by
        rw [editRegion, if_pos h1]
      rw [he, List.foldl_cons, List.foldl_cons]
      apply ih
      rw [secStep_of_status s h1, secStep_status_val t "answered" (by decide) (by decide)]
      exact ⟨hid, hopt, hac, hctx, hio, hdctx, Or.inr rfl, hans2, haat⟩
    · by_cases h2 : startsWithS (trimS l) "answer:" = true
      · have he : editRegion ans "answered" now found (l :: ls) =
            ("answer: " ++ ans) :: editRegion ans "answered" now true ls := by
          rw [editRegion, if_neg h1, if_pos h2]
        rw [he, List.foldl_cons, List.foldl_cons]
        apply ih
        rw [secStep_of_answer s h2, secStep_answer_val t ans hans hansne hansnull]
        exact ⟨hid, hopt, hac, hctx, hio, hdctx, hst, Or.inr rfl, haat⟩
      · by_cases h3 : startsWithS (trimS l) "answered_at:" = true
        · have he : editRegion ans "answered" now found (l :: ls) =
              ("answered_at: " ++ now) :: editRegion ans "answered" now found ls := by
            rw [editRegion, if_neg h1, if_neg h2, if_pos h3]
          rw [he, List.foldl_cons, List.foldl_cons]
          apply ih
          rw [secStep_of_answeredAt s h3,
            secStep_answeredAt_val t now hnow hnowne hnownull]
          exact ⟨hid, hopt, hac, hctx, hio, hdctx, hst, hans2, Or.inr rfl⟩
        · by_cases h4 : (¬ found = true) ∧ isTrigger l = true
          · have he : editRegion ans "answered" now found (l :: ls) =
                ("answer: " ++ ans) :: ("answered_at: " ++ now) :: l ::
                  editRegion ans "answered" now true ls := by
              rw [editRegion, if_neg h1, if_neg h2, if_neg h3, if_pos h4]
            rw [he, List.foldl_cons, List.foldl_cons, List.foldl_cons, List.foldl_cons]
            apply ih
            apply secStep_congr
            rw [secStep_answer_val t ans hans hansne hansnull,
              secStep_answeredAt_val _ now hnow hnowne hnownull]
            exact ⟨hid, hopt, hac, hctx, hio, hdctx, hst, Or.inr rfl, Or.inr rfl⟩
          · have he : editRegion ans "answered" now found (l :: ls) =
                l :: editRegion ans "answered" now found ls := by
              rw [editRegion, if_neg h1, if_neg h2, if_neg h3, if_neg h4]
            rw [he, List.foldl_cons, List.foldl_cons]
            exact ih _ _ found
              (secStep_congr l ⟨hid, hopt, hac, hctx, hio, hdctx, hst, hans2, haat⟩)

/-- A line of a given key class is no insertion trigger. -/
lemma kv_not_trigger {l p : String} (h : startsWithS (trimS l) p = true)
    {c : Char} {ps : List Char} (hp : p.data = c :: ps) (h1 : c ≠ '*') (h2 : c ≠ '-') :
    isTrigger l = false := by
  by_contra ht
  rw [Bool.not_eq_false] at ht
  rw [trigger_not_kv ht hp h1 h2] at h
  cases h

/-- Through a rewritten region without `status:` lines, the status is
carried. -/
lemma editRegion_fold_status_frame {ans now : String} :
    ∀ (ls : List String) (t : SecState) (found : Bool),
    (∀ l ∈ ls, startsWithS (trimS l) "status:" = false) →
    ((editRegion ans "answered" now found ls).foldl secStep t).d.status = t.d.status := by
  intro ls
  induction ls with
  | nil => intro t found _; rfl
  | cons l ls ih =>
    intro t found hno
    have hl := hno l (List.mem_cons_self l ls)
    have ihl := fun t found => ih t found (fun x hx => hno x (List.mem_cons_of_mem l hx))
    by_cases h2 : startsWithS (trimS l) "answer:" = true
    · have he : editRegion ans "answered" now found (l :: ls) =
          ("answer: " ++ ans) :: editRegion ans "answered" now true ls := by
        rw [editRegion, if_neg (by simp [hl]), if_pos h2]
      rw [he, List.foldl_cons]
      rw [ihl _ true, secStep_status_frame _ _ (answer_line_not_status ans)]
    · by_cases h3 : startsWithS (trimS l) "answered_at:" = true
      · have he : editRegion ans "answered" now found (l :: ls) =
            ("answered_at: " ++ now) :: editRegion ans "answered" now found ls := by
          rw [editRegion, if_neg (by simp [hl]), if_neg h2, if_pos h3]
        rw [he, List.foldl_cons]
        rw [ihl _ found, secStep_status_frame _ _ (answeredAt_line_not_status now)]
      · by_cases h4 : (¬ found = true) ∧ isTrigger l = true
        · have he : editRegion ans "answered" now found (l :: ls) =
              ("answer: " ++ ans) :: ("answered_at: " ++ now) :: l ::
                editRegion ans "answered" now true ls := by
            rw [editRegion, if_neg (by simp [hl]), if_neg h2, if_neg h3, if_pos h4]
          rw [he, List.foldl_cons, List.foldl_cons, List.foldl_cons]
          rw [ihl _ true, secStep_status_frame _ _ hl,
            secStep_status_frame _ _ (answeredAt_line_not_status now),
            secStep_status_frame _ _ (answer_line_not_status ans)]
        · have he : editRegion ans "answered" now found (l :: ls) =
              l :: editRegion ans "answered" now found ls := by
            rw [editRegion, if_neg (by simp [hl]), if_neg h2, if_neg h3, if_neg h4]
          rw [he, List.foldl_cons]
          rw [ihl _ found, secStep_status_frame _ _ hl]

/-- A rewritten region containing a `status:` line parses to status
`answered` — every `status:` line is rewritten to the written status. -/
lemma editRegion_fold_status_pos {ans now : String} :
    ∀ (reg : List String) (t : SecState) (found : Bool),
    reg.any (fun l => startsWithS (trimS l) "status:") = true →
    ((editRegion ans "answered" now found reg).foldl secStep t).d.status = "answered" := by
  intro reg
  induction reg with
  | nil => intro t found h; cases h
  | cons l ls ih =>
    intro t found hany
    by_cases h1 : startsWithS (trimS l) "status:" = true
    · have he : editRegion ans "answered" now found (l :: ls) =
          ("status: " ++ "answered") :: editRegion ans "answered" now found ls := by
        rw [editRegion, if_pos h1]
      rw [he, List.foldl_cons]
      by_cases hrest : ls.any (fun l => startsWithS (trimS l) "status:") = true
      · exact ih _ found hrest
      · rw [editRegion_fold_status_frame ls _ found
          (by simpa [List.any_eq_false] using hrest)]
        rw [secStep_status_val t "answered" (by decide) (by decide)]
    · have hany2 : ls.any (fun l => startsWithS (trimS l) "status:") = true := by
        rcases List.any_eq_true.mp hany with ⟨x, hx, hxs⟩
        rcases List.mem_cons.mp hx with rfl | hx2
        · exact absurd hxs (by simp [h1])
        · exact List.any_eq_true.mpr ⟨x, hx2, hxs⟩
      by_cases h2 : startsWithS (trimS l) "answer:" = true
      · have he : editRegion ans "answered" now found (l :: ls) =
            ("answer: " ++ ans) :: editRegion ans "answered" now true ls := by
          rw [editRegion, if_neg h1, if_pos h2]
        rw [he, List.foldl_cons]
        exact ih _ true hany2
      · by_cases h3 : startsWithS (trimS l) "answered_at:" = true
        · have he : editRegion ans "answered" now found (l :: ls) =
              ("answered_at: " ++ now) :: editRegion ans "answered" now found ls := by
            rw [editRegion, if_neg h1, if_neg h2, if_pos h3]
          rw [he, List.foldl_cons]
          exact ih _ found hany2
        · by_cases h4 : (¬ found = true) ∧ isTrigger l = true
          · have he : editRegion ans "answered" now found (l :: ls) =
                ("answer: " ++ ans) :: ("answered_at: " ++ now) :: l ::
                  editRegion ans "answered" now true ls := by
              rw [editRegion, if_neg h1, if_neg h2, if_neg h3, if_pos h4]
            rw [he, List.foldl_cons, List.foldl_cons, List.foldl_cons]
            exact ih _ true hany2
          · have he : editRegion ans "answered" now found (l :: ls) =
                l :: editRegion ans "answered" now found ls := by
              rw [editRegion, if_neg h1, if_neg h2, if_neg h3, if_neg h4]
            rw [he, List.foldl_cons]
            exact ih _ found hany2

/-- Through a rewritten region the answer is either carried or set to the
written answer. -/
lemma editRegion_fold_answer_stable {ans now : String}
    (hans : trimL ans.data = ans.data) (hansne : ans ≠ "") (hansnull : ans ≠ "null") :
    ∀ (ls : List String) (t : SecState) (found : Bool),
    ((editRegion ans "answered" now found ls).foldl secStep t).d.answer = t.d.answer ∨
    ((editRegion ans "answered" now found ls).foldl secStep t).d.answer = some ans := by
  intro ls
  induction ls with
  | nil => intro t found; exact Or.inl rfl
  | cons l ls ih =>
    intro t found
    by_cases h1 : startsWithS (trimS l) "status:" = true
    · have he : editRegion ans "answered" now found (l :: ls) =
          ("status: " ++ "answered") :: editRegion ans "answered" now found ls := by
        rw [editRegion, if_pos h1]
      rw [he, List.foldl_cons]
      rcases ih (secStep t ("status: " ++ "answered")) found with h | h
      · rw [h, secStep_answer_frame _ _ (by decide)]
        exact Or.inl rfl
      · exact Or.inr h
    · by_cases h2 : startsWithS (trimS l) "answer:" = true
      · have he : editRegion ans "answered" now found (l :: ls) =
            ("answer: " ++ ans) :: editRegion ans "answered" now true ls := by
          rw [editRegion, if_neg h1, if_pos h2]
        rw [he, List.foldl_cons]
        rcases ih (secStep t ("answer: " ++ ans)) true with h | h
        · rw [h, secStep_answer_val t ans hans hansne hansnull]
          exact Or.inr rfl
        · exact Or.inr h
      · by_cases h3 : startsWithS (trimS l) "answered_at:" = true
        · have he : editRegion ans "answered" now found (l :: ls) =
              ("answered_at: " ++ now) :: editRegion ans "answered" now found ls := by
            rw [editRegion, if_neg h1, if_neg h2, if_pos h3]
          rw [he, List.foldl_cons]
          rcases ih (secStep t ("answered_at: " ++ now)) found with h | h
          · rw [h, secStep_answer_frame _ _ (answeredAt_line_not_answer now)]
            exact Or.inl rfl
          · exact Or.inr h
        · by_cases h4 : (¬ found = true) ∧ isTrigger l = true
          · have he : editRegion ans "answered" now found (l :: ls) =
                ("answer: " ++ ans) :: ("answered_at: " ++ now) :: l ::
                  editRegion ans "answered" now true ls := by
              rw [editRegion, if_neg h1, if_neg h2, if_neg h3, if_pos h4]
            rw [he, List.foldl_cons, List.foldl_cons, List.foldl_cons]
            rcases ih (secStep (secStep (secStep t ("answer: " ++ ans))
                ("answered_at: " ++ now)) l) true with h | h
            · rw [h, secStep_answer_frame _ _ (trigger_not_kv h4.2 rfl
                (by decide) (by decide)),
                secStep_answer_frame _ _ (answeredAt_line_not_answer now),
                secStep_answer_val t ans hans hansne hansnull]
              exact Or.inr rfl
            · exact Or.inr h
          · have he : editRegion ans "answered" now found (l :: ls) =
                l :: editRegion ans "answered" now found ls := by
              rw [editRegion, if_neg h1, if_neg h2, if_neg h3, if_neg h4]
            rw [he, List.foldl_cons]
            rcases ih (secStep t l) found with h | h
            · rw [h, secStep_answer_frame _ _ (by simpa using h2)]
              exact Or.inl rfl
            · exact Or.inr h

/-- A rewritten region containing an `answer:` line — or edited with the
`foundAnswer` flag clear while containing a trigger line — parses to the
written answer. -/
lemma editRegion_fold_answer_pos {ans now : String}
    (hans : trimL ans.data = ans.data) (hansne : ans ≠ "") (hansnull : ans ≠ "null") :
    ∀ (reg : List String) (t : SecState) (found : Bool),
    (reg.any (fun l => startsWithS (trimS l) "answer:") = true ∨
      (found = false ∧ reg.any isTrigger = true)) →
    ((editRegion ans "answered" now found reg).foldl secStep t).d.answer = some ans := by
  intro reg
  induction reg with
  | nil =>
    intro t found h
    rcases h with h | ⟨-, h⟩ <;> cases h
  | cons l ls ih =>
    intro t found hyp
    by_cases h2 : startsWithS (trimS l) "answer:" = true
    · have h1 : startsWithS (trimS l) "status:" = false :=
        startsWith_disjoint h2 (by decide)
      have he : editRegion ans "answered" now found (l :: ls) =
          ("answer: " ++ ans) :: editRegion ans "answered" now true ls := by
        rw [editRegion, if_neg (by simp [h1]), if_pos h2]
      rw [he, List.foldl_cons]
      rcases editRegion_fold_answer_stable hans hansne hansnull ls
          (secStep t ("answer: " ++ ans)) true with h | h
      · rw [h, secStep_answer_val t ans hans hansne hansnull]
      · exact h
    · by_cases h1 : startsWithS (trimS l) "status:" = true
      · have he : editRegion ans "answered" now found (l :: ls) =
            ("status: " ++ "answered") :: editRegion ans "answered" now found ls := by
          rw [editRegion, if_pos h1]
        rw [he, List.foldl_cons]
        apply ih
        rcases hyp with h | ⟨hf, htr⟩
        · left
          rcases List.any_eq_true.mp h with ⟨x, hx, hxs⟩
          rcases List.mem_cons.mp hx with rfl | hx2
          · exact absurd hxs (by simp [h2])
          · exact List.any_eq_true.mpr ⟨x, hx2, hxs⟩
        · right
          refine ⟨hf, ?_⟩
          rcases List.any_eq_true.mp htr with ⟨x, hx, hxs⟩
          rcases List.mem_cons.mp hx with rfl | hx2
          · exact absurd hxs (by simp [kv_not_trigger h1 rfl (by decide) (by decide)])
          · exact List.any_eq_true.mpr ⟨x, hx2, hxs⟩
      · by_cases h3 : startsWithS (trimS l) "answered_at:" = true
        · have he : editRegion ans "answered" now found (l :: ls) =
              ("answered_at: " ++ now) :: editRegion ans "answered" now found ls := by
            rw [editRegion, if_neg h1, if_neg h2, if_pos h3]
          rw [he, List.foldl_cons]
          apply ih
          rcases hyp with h | ⟨hf, htr⟩
          · left
            rcases List.any_eq_true.mp h with ⟨x, hx, hxs⟩
            rcases List.mem_cons.mp hx with rfl | hx2
            · exact absurd hxs (by simp [h2])
            · exact List.any_eq_true.mpr ⟨x, hx2, hxs⟩
          · right
            refine ⟨hf, ?_⟩
            rcases List.any_eq_true.mp htr with ⟨x, hx, hxs⟩
            rcases List.mem_cons.mp hx with rfl | hx2
            · exact absurd hxs (by simp [kv_not_trigger h3 rfl (by decide) (by decide)])
            · exact List.any_eq_true.mpr ⟨x, hx2, hxs⟩
        · by_cases h4 : (¬ found = true) ∧ isTrigger l = true
          · have he : editRegion ans "answered" now found (l :: ls) =
                ("answer: " ++ ans) :: ("answered_at: " ++ now) :: l ::
                  editRegion ans "answered" now true ls := by
              rw [editRegion, if_neg h1, if_neg h2, if_neg h3, if_pos h4]
            rw [he, List.foldl_cons, List.foldl_cons, List.foldl_cons]
            rcases editRegion_fold_answer_stable hans hansne hansnull ls
                (secStep (secStep (secStep t ("answer: " ++ ans))
                  ("answered_at: " ++ now)) l) true with h | h
            · rw [h, secStep_answer_frame _ _ (trigger_not_kv h4.2 rfl
                (by decide) (by decide)),
                secStep_answer_frame _ _ (answeredAt_line_not_answer now),
                secStep_answer_val t ans hans hansne hansnull]
            · exact h
          · have he : editRegion ans "answered" now found (l :: ls) =
                l :: editRegion ans "answered" now found ls := by
              rw [editRegion, if_neg h1, if_neg h2, if_neg h3, if_neg h4]
            rw [he, List.foldl_cons]
            apply ih
            rcases hyp with h | ⟨hf, htr⟩
            · left
              rcases List.any_eq_true.mp h with ⟨x, hx, hxs⟩
              rcases List.mem_cons.mp hx with rfl | hx2
              · exact absurd hxs (by simp [h2])
              · exact List.any_eq_true.mpr ⟨x, hx2, hxs⟩
            · right
              refine ⟨hf, ?_⟩
              have hltr : isTrigger l = false := by
                by_contra hlt
                rw [Bool.not_eq_false] at hlt
                exact h4 ⟨by simp [hf], hlt⟩
              rcases List.any_eq_true.mp htr with ⟨x, hx, hxs⟩
              rcases List.mem_cons.mp hx with rfl | hx2
              · exact absurd hxs (by simp [hltr])
              · exact List.any_eq_true.mpr ⟨x, hx2, hxs⟩

/-! ## Document-level pipeline for the writer -/

lemma idmatch_delim (did : String) : isIdMatch did "---" = false := by
  unfold isIdMatch
  rw [show startsWithS (trimS "---") "id:" = false from rfl]
  rfl

/-- A key-value line whose key starts with a non-whitespace character
other than `i` can never match the editor's id pattern. -/
lemma kv_not_idmatch_head (did : String) {k : String} (v : String) {c : Char}
    {t : List Char} (hk : k.data = c :: t) (hws : c.isWhitespace = false)
    (hne : c ≠ 'i') : isIdMatch did (kvLine (k, v)) = false := by
  have hdata : (kvLine (k, v)).data = c :: (t ++ (": " ++ v).data) := by
    show ((k ++ ": ") ++ v).data = _
    rw [data_append, data_append, hk]
    simp
  unfold isIdMatch
  rw [trim_startsWith_false hdata hws (p := "id:") rfl hne.symm]
  rfl

/-- Every line of a rewritten region is an original line or one of the
three written key lines. -/
lemma editRegion_mem {ans st now : String} :
    ∀ (reg : List String) (f : Bool), ∀ l ∈ editRegion ans st now f reg,
    l ∈ reg ∨ l = "status: " ++ st ∨ l = "answer: " ++ ans ∨
      l = "answered_at: " ++ now := by
  intro reg
  induction reg with
  | nil => intro f l hl; cases hl
  | cons x ls ih =>
    intro f l hl
    rw [editRegion] at hl
    split_ifs at hl with h1 h2 h3 h4 <;> simp only [List.mem_cons] at hl
    · rcases hl with rfl | hl
      · exact Or.inr (Or.inl rfl)
      · rcases ih f l hl with h | h
        · exact Or.inl (List.mem_cons_of_mem x h)
        · exact Or.inr h
    · rcases hl with rfl | hl
      · exact Or.inr (Or.inr (Or.inl rfl))
      · rcases ih true l hl with h | h
        · exact Or.inl (List.mem_cons_of_mem x h)
        · exact Or.inr h
    · rcases hl with rfl | hl
      · exact Or.inr (Or.inr (Or.inr rfl))
      · rcases ih f l hl with h | h
        · exact Or.inl (List.mem_cons_of_mem x h)
        · exact Or.inr h
    · rcases hl with rfl | rfl | rfl | hl
      · exact Or.inr (Or.inr (Or.inl rfl))
      · exact Or.inr (Or.inr (Or.inr rfl))
      · exact Or.inl (List.mem_cons_self _ _)
      · rcases ih true l hl with h | h
        · exact Or.inl (List.mem_cons_of_mem x h)
        · exact Or.inr h
    · rcases hl with rfl | hl
      · exact Or.inl (List.mem_cons_self _ _)
      · rcases ih f l hl with h | h
        · exact Or.inl (List.mem_cons_of_mem x h)
        · exact Or.inr h

lemma upd_keys (decisions : List Decision) (did now : String) :
    (updateDecisionFM decisions did now).map Prod.fst =
      ["status", "answered", "remaining", "updated_at"] := rfl

lemma lookupRaw_key_mem {u : List (String × String)} {k v : String}
    (h : lookupRaw u k = some v) : k ∈ u.map Prod.fst := by
  unfold lookupRaw at h
  obtain ⟨w, h1, h2⟩ := Option.map_eq_some'.mp h
  have hw := List.find?_some h1
  have hmem := List.mem_of_find?_eq_some h1
  rw [decide_eq_true_eq] at hw
  exact hw ▸ List.mem_map.mpr ⟨w, hmem, rfl⟩

/-- No entry of the merged front matter matches the editor's id pattern
when no original entry does: the four update keys do not start with
`i`. -/
lemma mergeFM_upd_noidmatch (did : String) (data : List (String × String))
    (decisions : List Decision) (now : String)
    (hfm : ∀ p ∈ data, isIdMatch did (kvLine p) = false) :
    ∀ p ∈ mergeFM data (updateDecisionFM decisions did now),
      isIdMatch did (kvLine p) = false := by
  intro p hp
  have hk4 : ∀ q : String × String,
      q.1 ∈ ["status", "answered", "remaining", "updated_at"] →
      isIdMatch did (kvLine q) = false := by
    rintro ⟨k, v⟩ hq
    simp only [List.mem_cons] at hq
    rcases hq with rfl | rfl | rfl | rfl | h
    · exact kv_not_idmatch_head did v rfl (by decide) (by decide)
    · exact kv_not_idmatch_head did v rfl (by decide) (by decide)
    · exact kv_not_idmatch_head did v rfl (by decide) (by decide)
    · exact kv_not_idmatch_head did v rfl (by decide) (by decide)
    · cases h
  rcases List.mem_append.mp hp with h | h
  · obtain ⟨q, hq, hfq⟩ := List.mem_map.mp h
    unfold mergeEntry at hfq
    cases hl : lookupRaw (updateDecisionFM decisions did now) q.1 with
    | some v =>
      rw [hl] at hfq
      have hkm := lookupRaw_key_mem hl
      rw [upd_keys] at hkm
      subst hfq
      exact hk4 (q.1, v) hkm
    | none =>
      rw [hl] at hfq
      exact hfq ▸ hfm q hq
  · have hq := List.mem_of_mem_filter h
    have hkm : p.1 ∈ (updateDecisionFM decisions did now).map Prod.fst :=
      List.mem_map.mpr ⟨p, hq, rfl⟩
    rw [upd_keys] at hkm
    exact hk4 p hkm

/-- The first binding of a key under distinct keys is the member
binding. -/
lemma lookupRaw_self {u : List (String × String)}
    (hnd : (u.map Prod.fst).Nodup) : ∀ {q}, q ∈ u → lookupRaw u q.1 = some q.2 := by
  induction u with
  | nil => intro q hq; cases hq
  | cons p ps ih =>
    intro q hq
    rw [List.map_cons, List.nodup_cons] at hnd
    rcases List.mem_cons.mp hq with rfl | hq2
    · unfold lookupRaw
      rw [List.find?_cons_of_pos _ (by simp)]
      rfl
    · have hne : p.1 ≠ q.1 := by
        intro he
        exact hnd.1 (he ▸ List.mem_map.mpr ⟨q, hq2, rfl⟩)
      unfold lookupRaw
      rw [List.find?_cons_of_neg _ (by simp [hne])]
      exact ih hnd.2 hq2

lemma mergeEntry_idem (u : List (String × String)) (p : String × String) :
    mergeEntry u (mergeEntry u p) = mergeEntry u p := by
  unfold mergeEntry
  cases hl : lookupRaw u p.1 with
  | some v => simp [hl]
  | none => simp [hl]

/-- Object-spread merge with the same update twice is one merge, when the
update's keys are distinct. -/
lemma mergeFM_idem (data u : List (String × String))
    (hnd : (u.map Prod.fst).Nodup) :
    mergeFM (mergeFM data u) u = mergeFM data u := by
  have hfilter : (u.filter (fun q => ¬ hasKey (mergeFM data u) q.1)) = [] := by
    rw [List.filter_eq_nil_iff]
    intro q hq
    have hk : hasKey (mergeFM data u) q.1 = true := by
      by_cases hd : hasKey data q.1 = true
      · exact hasKey_mergeFM data u q.1 hd
      · unfold hasKey mergeFM
        rw [List.any_append, Bool.or_eq_true]
        right
        rw [List.any_eq_true]
        exact ⟨q, List.mem_filter.mpr ⟨hq, by simp [hd]⟩, by simp⟩
    simp [hk]
  have hmap : (mergeFM data u).map (mergeEntry u) = mergeFM data u := by
    unfold mergeFM
    rw [List.map_append, List.map_map]
    congr 1
    · exact List.map_congr_left (fun p _ => mergeEntry_idem u p)
    · apply List.map_congr_left ?_ |>.trans (List.map_id _)
      intro q hq
      have hqu := List.mem_of_mem_filter hq
      show mergeEntry u q = q
      unfold mergeEntry
      rw [lookupRaw_self hnd hqu]
  show (mergeFM data u).map (mergeEntry u) ++
    (u.filter (fun q => ¬ hasKey (mergeFM data u) q.1)) = mergeFM data u
  rw [hfilter, List.append_nil, hmap]

/-- The raw document written by `updateDecision` on a canonical document
whose only matching `id:` line heads the given region of one target
section: the front matter is merged with the four-key update, the target
region is rewritten by `editRegion`, and every other line is
byte-identical. -/
lemma updateDecisionContent_pipeline
    (path did ans now : String)
    (data : List (String × String))
    (ctx0 spre reg : List String) (hT idL : String)
    (secsB secsA : List (List String))
    (hcanon : FMCanon data)
    (hkeys : requiredFields.all (fun k => hasKey data k) = true)
    (hfm : ∀ p ∈ data, isIdMatch did (kvLine p) = false)
    (hctxnm : ∀ l ∈ ctx0, isIdMatch did l = false)
    (hsecsBnm : ∀ s ∈ secsB, ∀ l ∈ s, isIdMatch did l = false)
    (hhT : isHeadingStrict hT = true)
    (hsprenm : ∀ l ∈ spre, isIdMatch did l = false)
    (hid : isIdMatch did idL = true)
    (hreg : ∀ l ∈ reg, isHeadingStrict l = false)
    (hsecsA : ∀ s ∈ secsA, WFSection s)
    (hsecsAnm : ∀ s ∈ secsA, ∀ l ∈ s, isIdMatch did l = false) :
    updateDecisionContent
        (stringifyFM data
          (ctx0 ++ (secsB ++ (hT :: (spre ++ (idL :: reg))) :: secsA).flatten))
        path did ans now =
      some (stringifyFM
        (mergeFM data (updateDecisionFM
          (decisionsOf
            (ctx0 ++ (secsB ++ (hT :: (spre ++ (idL :: reg))) :: secsA).flatten))
          did now))
        (ctx0 ++ (secsB ++
          (hT :: (spre ++ (idL :: editRegion ans "answered" now false reg)))
            :: secsA).flatten)) := by
  have hshape : stringifyFM data
      (ctx0 ++ (secsB ++ (hT :: (spre ++ (idL :: reg))) :: secsA).flatten) =
      ("---" :: (data.map kvLine ++ "---" ::
        (ctx0 ++ (secsB.flatten ++ (hT :: spre)))))
        ++ (idL :: (reg ++ secsA.flatten)) := by
    simp [stringifyFM, List.flatten_append, List.flatten_cons, List.append_assoc]
  have hshape2 : stringifyFM data
      (ctx0 ++ (secsB ++
        (hT :: (spre ++ (idL :: editRegion ans "answered" now false reg)))
          :: secsA).flatten) =
      ("---" :: (data.map kvLine ++ "---" ::
        (ctx0 ++ (secsB.flatten ++ (hT :: spre)))))
        ++ (idL :: (editRegion ans "answered" now false reg ++ secsA.flatten)) := by
    simp [stringifyFM, List.flatten_append, List.flatten_cons, List.append_assoc]
  have hP : ∀ l ∈ ("---" :: (data.map kvLine ++ "---" ::
      (ctx0 ++ (secsB.flatten ++ (hT :: spre))))), isIdMatch did l = false := by
    intro l hl
    simp only [List.mem_cons, List.mem_append, List.mem_flatten] at hl
    rcases hl with rfl | hl
    · exact idmatch_delim did
    rcases hl with hl | hl
    · obtain ⟨p, hp, rfl⟩ := List.mem_map.mp hl
      exact hfm p hp
    rcases hl with rfl | hl
    · exact idmatch_delim did
    rcases hl with hl | hl
    · exact hctxnm l hl
    rcases hl with ⟨s, hs, hls⟩ | hl
    · exact hsecsBnm s hs l hls
    rcases hl with rfl | hl
    · exact heading_not_idmatch hhT
    · exact hsprenm l hl
  have htnm : ∀ l ∈ secsA.flatten, isIdMatch did l = false := by
    intro l hl
    obtain ⟨s, hs, hls⟩ := List.mem_flatten.mp hl
    exact hsecsAnm s hs l hls
  have hedit : updateDecisionInBody
      (stringifyFM data
        (ctx0 ++ (secsB ++ (hT :: (spre ++ (idL :: reg))) :: secsA).flatten))
      did ans "answered" now =
      stringifyFM data
        (ctx0 ++ (secsB ++
          (hT :: (spre ++ (idL :: editRegion ans "answered" now false reg)))
            :: secsA).flatten) := by
    rw [hshape, hshape2]
    cases secsA with
    | nil =>
      rw [List.flatten_nil, List.append_nil, List.append_nil]
      exact updateDecisionInBody_decomp_end did ans "answered" now _ idL reg hP hid hreg
    | cons s rest =>
      obtain ⟨h, t, hs, hh, ht⟩ := hsecsA s (List.mem_cons_self s rest)
      subst hs
      rw [List.flatten_cons, List.cons_append]
      have htail : ∀ l ∈ t ++ rest.flatten, isIdMatch did l = false := by
        intro l hl
        apply htnm
        rw [List.flatten_cons, List.cons_append]
        exact List.mem_cons_of_mem h hl
      exact updateDecisionInBody_decomp did ans "answered" now _ idL reg h
        (t ++ rest.flatten) hP hid hreg hh htail
  have hparse : parseDecisionFile
      (stringifyFM data
        (ctx0 ++ (secsB ++ (hT :: (spre ++ (idL :: reg))) :: secsA).flatten))
      path now =
      some (parsedOf
        (stringifyFM data
          (ctx0 ++ (secsB ++ (hT :: (spre ++ (idL :: reg))) :: secsA).flatten))
        path now) := by
    unfold parseDecisionFile
    rw [fmData_stringify _ hcanon, if_pos hkeys]
  unfold updateDecisionContent
  rw [hparse]
  show some (updateFrontmatter _ _) = _
  rw [hedit]
  unfold updateFrontmatter
  rw [fmData_stringify _ hcanon, fmBody_stringify]
  rw [parsedOf_decisions, fmBody_stringify]

/-- Parsing the rewritten target section: identity, options, custom flag
and context are those of the original parse; status is the written
`answered`; the answer is the written answer; the timestamp is some
value. -/
lemma editedTarget_parse
    (ans now : String)
    (hans : trimL ans.data = ans.data) (hansne : ans ≠ "") (hansnull : ans ≠ "null")
    (hansnl : '\n' ∉ ans.data)
    (hnow : trimL now.data = now.data) (hnowne : now ≠ "") (hnownull : now ≠ "null")
    (hnownl : '\n' ∉ now.data)
    (hT idL : String) (spre reg : List String)
    (hcleanT : ∀ l ∈ hT :: (spre ++ (idL :: reg)),
      trimL l.data = l.data ∧ '\n' ∉ l.data)
    (hhT : isHeadingStrict hT = true)
    (dIn : Decision)
    (hparse : parseDecisionSection (hT :: (spre ++ (idL :: reg))) = some dIn)
    (hregstat : reg.any (fun l => startsWithS (trimS l) "status:") = true)
    (hregans : reg.any (fun l => startsWithS (trimS l) "answer:") = true) :
    ∃ aat, parseDecisionSection
        (hT :: (spre ++ (idL :: editRegion ans "answered" now false reg))) =
      some { dIn with status := "answered", answer := some ans, answeredAt := aat } := by
  have hTne : hT ≠ "" := by
    obtain ⟨t, ht⟩ := heading_data hhT
    intro he
    rw [he] at ht
    cases ht
  have hstatclean : trimL ("status: " ++ "answered").data = ("status: " ++ "answered").data := by
    have h := congrArg String.data
      (trimS_key_line "status: " "answered" rfl (by decide) (by decide) (by decide))
    exact h
  have hansclean : trimL ("answer: " ++ ans).data = ("answer: " ++ ans).data :=
    congrArg String.data (trimS_key_line "answer: " ans rfl (by decide) hans hansne)
  have haatclean : trimL ("answered_at: " ++ now).data = ("answered_at: " ++ now).data :=
    congrArg String.data (trimS_key_line "answered_at: " now rfl (by decide) hnow hnowne)
  have hcleanE : ∀ l ∈ hT :: (spre ++ (idL :: editRegion ans "answered" now false reg)),
      trimL l.data = l.data ∧ '\n' ∉ l.data := by
    intro l hl
    simp only [List.mem_cons, List.mem_append] at hl
    rcases hl with rfl | hl | rfl | hl
    · exact hcleanT _ (List.mem_cons_self _ _)
    · exact hcleanT l (by simp [hl])
    · exact hcleanT _ (by simp)
    · rcases editRegion_mem reg false l hl with h | rfl | rfl | rfl
      · exact hcleanT l (by simp [h])
      · refine ⟨hstatclean, ?_⟩
        rw [data_append]
        intro hm
        rcases List.mem_append.mp hm with hm | hm
        · revert hm; decide
        · revert hm; decide
      · refine ⟨hansclean, ?_⟩
        rw [data_append]
        intro hm
        rcases List.mem_append.mp hm with hm | hm
        · revert hm; decide
        · exact hansnl hm
      · refine ⟨haatclean, ?_⟩
        rw [data_append]
        intro hm
        rcases List.mem_append.mp hm with hm | hm
        · revert hm; decide
        · exact hnownl hm
  rw [parseDecisionSection_canonical hcleanT rfl hTne] at hparse
  rw [parseDecisionSection_canonical hcleanE rfl hTne]
  unfold parseSecCore at hparse ⊢
  by_cases htl : matchSectionTitle hT = true
  · rw [if_pos htl] at hparse ⊢
    rw [List.foldl_append, List.foldl_cons] at hparse ⊢
    have hrel := editRegion_fold_rel hans hansne hansnull hnow hnowne hnownull reg
      (secStep (spre.foldl secStep pdsInit) idL)
      (secStep (spre.foldl secStep pdsInit) idL) false
      (editRel_refl ans now _)
    obtain ⟨hid2, hopt2, hac2, hctx2, hio2, hdctx2, hst2, hans2, haat2⟩ := hrel
    have hstv := @editRegion_fold_status_pos ans now reg
      (secStep (spre.foldl secStep pdsInit) idL) false hregstat
    have hansv := @editRegion_fold_answer_pos ans now hans hansne hansnull reg
      (secStep (spre.foldl secStep pdsInit) idL) false (Or.inl hregans)
    unfold pdsFinal at hparse ⊢
    dsimp only at hparse ⊢
    by_cases hide : (reg.foldl secStep (secStep (spre.foldl secStep pdsInit) idL)).d.id = ""
    · rw [if_pos hide] at hparse
      cases hparse
    · rw [if_neg hide] at hparse
      rw [if_neg (by rw [hid2]; exact hide)]
      refine ⟨((editRegion ans "answered" now false reg).foldl secStep
        (secStep (spre.foldl secStep pdsInit) idL)).d.answeredAt, ?_⟩
      have hdin := Option.some.inj hparse
      rw [← hdin]
      dsimp only
      rw [hid2, hopt2, hac2, hctx2, hstv, hansv]
  · rw [if_neg htl] at hparse
    cases hparse

/-! ## Claims -/

/-- Claim C9: `getPending` returns all cached plans and nothing else (a
permutation of the cache's values), ordered by priority severity rank
ascending (`urgent=0, high=1, normal=2, low=3`) with ties broken by
creation time ascending; it is a pure function of the cache contents
(`getPendingM` is a function of the cache and performs no I/O). -/
theorem C9_getPending_sorted (time : String → Int) (cache : Cache) :
    (getPendingM time cache).Perm (cache.map Prod.snd) ∧
      (getPendingM time cache).Pairwise (fun a b => planLe time a b = true) := by
  refine ⟨List.mergeSort_perm _ _, ?_⟩
  exact List.sorted_mergeSort (planLe_trans time · · ·) (planLe_total time) (cache.map Prod.snd)

/-- Claim C1: `submitPlan` is only valid on a plan in `ready` state: for a
cached plan with status `ready` it returns the plan transitioned to
`completed`, removes it from the cache (relocation) and reports the
notification target; for a plan id that is absent, or whose plan is not
`ready`, it returns the not-found/no-op signal and leaves the cache
untouched with no side effects. -/
theorem C1_submitPlan_ready_only (cache : Cache) (planId now : String) :
    (∀ p, getPlanM cache planId = some p → p.frontmatter.status = "ready" →
      (submitPlanM cache planId now).plan =
          some { p with frontmatter := { p.frontmatter with
            status := "completed", completedAt := some now, updatedAt := now } } ∧
        (submitPlanM cache planId now).cache = cache.filter (fun e => e.1 ≠ p.filePath) ∧
        (submitPlanM cache planId now).relocatedFrom = some p.filePath ∧
        (submitPlanM cache planId now).notified = p.frontmatter.notifySession) ∧
    (∀ p, getPlanM cache planId = some p → p.frontmatter.status ≠ "ready" →
      submitPlanM cache planId now = ⟨none, cache, none, none⟩) ∧
    (getPlanM cache planId = none → submitPlanM cache planId now = ⟨none, cache, none, none⟩) := by
  refine ⟨fun p hp hr => ?_, fun p hp hr => ?_, fun hp => ?_⟩
  · simp [submitPlanM, hp, hr]
  · simp [submitPlanM, hp, hr]
  · simp [submitPlanM, hp]

/-- Document used to instantiate claim C1: a plan in `ready` state. -/
def c1doc : List String := [
  "---",
  "id: plan-1",
  "agent: ag",
  "session: s1",
  "title: T",
  "status: ready",
  "notify_session: ns",
  "created_at: 2026-01-30T00:00:00Z",
  "---",
  "",
  "## Decision 1: A",
  "",
  "id: d1",
  "status: answered",
  "answer: x"
]

/-- The decoded `ready` plan for the C1 witness. -/
def c1plan : DecisionFile := (parseDecisionFile c1doc "/q/pending/p.md" "T0").getD default

/-- Witness for claim C1: on a concrete one-plan cache whose plan is
`ready`, submit completes, relocates and notifies. -/
theorem C1_submitPlan_ready_only_witness :
    getPlanM [("/q/pending/p.md", c1plan)] "plan-1" = some c1plan ∧
      c1plan.frontmatter.status = "ready" ∧
      ((submitPlanM [("/q/pending/p.md", c1plan)] "plan-1" "T9").plan =
          some { c1plan with frontmatter := { c1plan.frontmatter with
            status := "completed", completedAt := some "T9", updatedAt := "T9" } } ∧
        (submitPlanM [("/q/pending/p.md", c1plan)] "plan-1" "T9").cache =
          List.filter (fun e => e.1 ≠ c1plan.filePath) [("/q/pending/p.md", c1plan)] ∧
        (submitPlanM [("/q/pending/p.md", c1plan)] "plan-1" "T9").relocatedFrom =
          some c1plan.filePath ∧
        (submitPlanM [("/q/pending/p.md", c1plan)] "plan-1" "T9").notified =
          c1plan.frontmatter.notifySession) :=
  ⟨by decide, by decide,
    (C1_submitPlan_ready_only [("/q/pending/p.md", c1plan)] "plan-1" "T9").1 c1plan
      (by decide) (by decide)⟩

/-- Document with stale counters for claim C3: the metadata claims
`total: 5, answered: 3` while the body holds a single unanswered
decision. -/
def c3doc : List String := [
  "---",
  "id: p3",
  "agent: ag",
  "session: s1",
  "title: T",
  "status: pending",
  "total: 5",
  "answered: 3",
  "---",
  "",
  "## Decision 1: A",
  "",
  "id: a",
  "status: pending",
  "answer: null"
]

/-- Counterexample to claim C3 as stated: recomputed values do NOT take
precedence over stale nonzero metadata — decoding a document whose
metadata says `total: 5, answered: 3` over a single unanswered decision
keeps `total = 5` and `answered = 3`, so `total` is not the number of
parsed decision sections. -/
theorem C3_cex :
    (parseDecisionFile c3doc "/t" "T0").map
        (fun f => (f.frontmatter.total, f.frontmatter.answered,
          f.frontmatter.remaining, (f.decisions.length : Int))) = some (5, 3, 2, 1) ∧
      (5 : Int) ≠ (1 : Int) := by
  refine ⟨by decide, by decide⟩

/-- Claim C3 (amended): for every accepted document,
`answered + remaining = total` holds because `remaining` is always
recomputed as `total - answered`; but `total` equals the number of parsed
decision sections only when the metadata `total` is absent, null or `0` —
a stale nonzero metadata value is kept, not recomputed (and similarly for
`answered`). -/
theorem C3_counter_invariant (content : List String) (path now : String) (f : DecisionFile)
    (h : parseDecisionFile content path now = some f) :
    f.frontmatter.answered + f.frontmatter.remaining = f.frontmatter.total ∧
      (getIntD (fmData content) "total" 0 = 0 →
        f.frontmatter.total = (f.decisions.length : Int)) := by
  obtain ⟨-, rfl⟩ := parse_eq_some h
  constructor
  · simp only [parsedOf]
    ring
  · intro h0
    simp only [parsedOf]
    have : (frontmatterOf (fmData content) now).total = 0 := h0
    simp [this]

/-- Witness for claim C3 (amended): instantiated at the stale-counter
document, where `3 + 2 = 5`. -/
theorem C3_counter_invariant_witness :
    parseDecisionFile c3doc "/t" "T0" = some (parsedOf c3doc "/t" "T0") ∧
      (parsedOf c3doc "/t" "T0").frontmatter.answered +
          (parsedOf c3doc "/t" "T0").frontmatter.remaining =
        (parsedOf c3doc "/t" "T0").frontmatter.total :=
  ⟨by decide, (C3_counter_invariant c3doc "/t" "T0" _ (by decide)).1⟩

/-- Document without `created_at`/`updated_at` keys for claim C7. -/
def c7doc : List String := [
  "---",
  "id: p7",
  "agent: ag",
  "session: s1",
  "title: T",
  "status: pending",
  "---",
  "",
  "## Decision 1: A",
  "",
  "id: a",
  "status: pending"
]

/-- Counterexample to claim C7 as stated: decode is NOT a pure function
of the input bytes for documents omitting `created_at`/`updated_at` —
decoding the same bytes at two decode times yields different Plans
(`createdAt`/`updatedAt` default to the decode-time clock). -/
theorem C7_cex :
    parseDecisionFile c7doc "/t" "2026-01-01T00:00:00Z" ≠
      parseDecisionFile c7doc "/t" "2026-01-02T00:00:00Z" := by
  decide

/-- Claim C7 (amended): decode depends on the input bytes and the decode
time only; for documents that carry non-null `created_at` (or `createdAt`)
and `updated_at` (or `updatedAt`) metadata it is independent of the decode
time, hence a pure function of the input bytes. -/
theorem C7_decode_deterministic (content : List String) (path t1 t2 : String)
    (hc : ((lookupVal (fmData content) "created_at").orElse
        (fun _ => lookupVal (fmData content) "createdAt")).isSome)
    (hu : ((lookupVal (fmData content) "updated_at").orElse
        (fun _ => lookupVal (fmData content) "updatedAt")).isSome) :
    parseDecisionFile content path t1 = parseDecisionFile content path t2 := by
  obtain ⟨vc, hvc⟩ := Option.isSome_iff_exists.mp hc
  obtain ⟨vu, hvu⟩ := Option.isSome_iff_exists.mp hu
  unfold parseDecisionFile parsedOf frontmatterOf getStr2
  rw [hvc, hvu]
  simp

/-- Document carrying both timestamp keys, for the C7 witness. -/
def c7wdoc : List String := [
  "---",
  "id: p7w",
  "agent: ag",
  "session: s1",
  "title: T",
  "status: pending",
  "created_at: 2026-01-30T00:00:00Z",
  "updated_at: 2026-01-30T00:00:00Z",
  "---",
  "",
  "## Decision 1: A",
  "",
  "id: a",
  "status: pending"
]

/-- Witness for claim C7 (amended): a document carrying both timestamp
keys decodes identically at two different decode times. -/
theorem C7_decode_deterministic_witness :
    (((lookupVal (fmData c7wdoc) "created_at").orElse
        (fun _ => lookupVal (fmData c7wdoc) "createdAt")).isSome ∧
      ((lookupVal (fmData c7wdoc) "updated_at").orElse
        (fun _ => lookupVal (fmData c7wdoc) "updatedAt")).isSome) ∧
      parseDecisionFile c7wdoc "/t" "TIME-A" = parseDecisionFile c7wdoc "/t" "TIME-B" :=
  ⟨⟨by decide, by decide⟩,
    C7_decode_deterministic c7wdoc "/t" "TIME-A" "TIME-B" (by decide) (by decide)⟩

/-- Claim C2: the status value that `updateDecision` writes into the
plan's front matter is `ready` when the recomputed remaining count is `0`
and `in_progress` otherwise, and is never `completed`; consequently the
plan returned by answering or skipping a decision never has status
`completed` — `completed` is reachable only through an explicit submit. -/
theorem C2_update_status_never_completed (content : List String)
    (path did ans now : String) (hnow : trimS now = now) :
    (∀ out, updateDecisionContent content path did ans now = some out →
      ∃ parsed, parseDecisionFile content path now = some parsed ∧
        lookupRaw (fmData out) "status" =
          some (if parsed.decisions.length - answeredCountAfter parsed.decisions did = 0
            then "ready" else "in_progress") ∧
        lookupRaw (fmData out) "status" ≠ some "completed") ∧
    (∀ f, updateDecision content path did ans now = some f →
      (f.frontmatter.status = "ready" ∨ f.frontmatter.status = "in_progress") ∧
        f.frontmatter.status ≠ "completed") := by
  have hnowL : trimL now.data = now.data := congrArg String.data hnow
  have key : ∀ out, updateDecisionContent content path did ans now = some out →
      ∃ parsed, parseDecisionFile content path now = some parsed ∧
        lookupRaw (fmData out) "status" =
          some (if parsed.decisions.length - answeredCountAfter parsed.decisions did = 0
            then "ready" else "in_progress") := by
    intro out h
    unfold updateDecisionContent at h
    cases hp : parseDecisionFile content path now with
    | none => rw [hp] at h; cases h
    | some parsed =>
      rw [hp] at h
      refine ⟨parsed, rfl, ?_⟩
      have hout : out = updateFrontmatter
          (updateDecisionInBody content did ans "answered" now)
          (updateDecisionFM parsed.decisions did now) := by
        cases h; rfl
      subst hout
      unfold updateFrontmatter
      rw [fmData_stringify _ (mergeFM_canon (fmData_canon _)
        (updateDecisionFM_canon parsed.decisions did now hnowL))]
      apply lookupRaw_mergeFM
      rfl
  constructor
  · intro out h
    obtain ⟨parsed, hp, hl⟩ := key out h
    refine ⟨parsed, hp, hl, ?_⟩
    rw [hl]
    by_cases hr : parsed.decisions.length - answeredCountAfter parsed.decisions did = 0 <;>
      simp [hr]
  · intro f h
    unfold updateDecision at h
    obtain ⟨out, hout, hparse⟩ := Option.bind_eq_some.mp h
    obtain ⟨parsed, -, hl⟩ := key out hout
    obtain ⟨-, rfl⟩ := parse_eq_some hparse
    rw [parsedOf_status]
    unfold getStrD lookupVal
    rw [hl]
    by_cases hr : parsed.decisions.length - answeredCountAfter parsed.decisions did = 0 <;>
      simp [hr]

/-- The two-decision document of the repository's own test suite, used to
instantiate claim C2. -/
def c2doc : List String := [
  "---",
  "id: test-plan-123",
  "agent: test-agent",
  "session: agent:test:main",
  "title: Test Plan",
  "status: pending",
  "created_at: 2026-01-30T00:00:00Z",
  "---",
  "",
  "## Decision 1: First Choice",
  "",
  "id: first-choice",
  "status: pending",
  "answer: null",
  "answered_at: null",
  "",
  "## Decision 2: Second Choice",
  "",
  "id: second-choice",
  "status: pending",
  "answer: null",
  "answered_at: null"
]

/-- The plan returned by answering the first decision of `c2doc`. -/
def c2file : DecisionFile :=
  (updateDecision c2doc "/t" "first-choice" "option-a" "T1").getD default

/-- Witness for claim C2: answering one of two decisions writes status
`in_progress`, and the returned plan is never `completed`. -/
theorem C2_update_status_never_completed_witness :
    trimS "T1" = "T1" ∧
      updateDecision c2doc "/t" "first-choice" "option-a" "T1" = some c2file ∧
      ((c2file.frontmatter.status = "ready" ∨ c2file.frontmatter.status = "in_progress") ∧
        c2file.frontmatter.status ≠ "completed") :=
  ⟨by decide, by rfl,
    (C2_update_status_never_completed c2doc "/t" "first-choice" "option-a" "T1"
      (by decide)).2 c2file (by rfl)⟩

/-- Claim C8: a document missing any required metadata key (`id`, `agent`,
`session`, `title`, `status`) is rejected by decode (`none`, and the model
is a total function, so no exception); a document with all required keys
but zero decision sections decodes to a plan with an empty decision list
which `isValidDecisionFile` flags as not presentable. -/
theorem C8_malformed_handling (content : List String) (path now : String) :
    ((∃ k ∈ requiredFields, hasKey (fmData content) k = false) →
      parseDecisionFile content path now = none) ∧
    ((requiredFields.all (fun k => hasKey (fmData content) k) = true) →
      (∀ l ∈ fmBody content, isHeadingStrict l = false) →
      parseDecisionFile content path now = some (parsedOf content path now) ∧
        (parsedOf content path now).decisions = [] ∧
        isValidDecisionFile (parsedOf content path now) = false) := by
  constructor
  · rintro ⟨k, hk, hfalse⟩
    unfold parseDecisionFile
    rw [if_neg]
    intro hall
    rw [List.all_eq_true] at hall
    have := hall k hk
    rw [hfalse] at this
    simp at this
  · intro hall hnohead
    have hdec : (parsedOf content path now).decisions = [] := by
      rw [parsedOf_decisions]
      exact decisionsOf_noheading hnohead
    refine ⟨?_, hdec, ?_⟩
    · unfold parseDecisionFile
      rw [if_pos hall]
    · simp [isValidDecisionFile, hdec]

/-- A document with no metadata block at all (the test suite's
`MISSING_FRONTMATTER` sample), for the C8 witness. -/
def c8bad : List String := [
  "# Test Plan",
  "",
  "No frontmatter here.",
  "",
  "## Decision 1: First Choice",
  "",
  "id: first-choice",
  "status: pending"
]

/-- Valid metadata but zero decision sections (the test suite's
`MISSING_DECISIONS` sample), for the C8 witness. -/
def c8empty : List String := [
  "---",
  "id: empty-plan",
  "agent: test",
  "session: agent:test:main",
  "title: Empty Plan",
  "status: pending",
  "---",
  "",
  "# Empty Plan",
  "",
  "No decisions in this file."
]

/-- Witness for claim C8: both branches instantiated on the repository's
own test documents. -/
theorem C8_malformed_handling_witness :
    parseDecisionFile c8bad "/t" "T0" = none ∧
      (parseDecisionFile c8empty "/t" "T0" = some (parsedOf c8empty "/t" "T0") ∧
        (parsedOf c8empty "/t" "T0").decisions = [] ∧
        isValidDecisionFile (parsedOf c8empty "/t" "T0") = false) :=
  ⟨(C8_malformed_handling c8bad "/t" "T0").1 ⟨"status", by decide, by decide⟩,
    (C8_malformed_handling c8empty "/t" "T0").2 (by decide) (by decide)⟩

/-- Body with two decisions whose ids overlap as substrings: `a-2` first,
then `a` (claim C10's own example). -/
def c10doc : List String := [
  "## Decision 1: First",
  "",
  "id: a-2",
  "status: pending",
  "answer: null",
  "",
  "## Decision 2: Second",
  "",
  "id: a",
  "status: pending",
  "answer: null"
]

/-- Counterexample to claim C10 as stated: the body editor does not
rewrite only the first section whose id line contains the decisionId —
answering `a` on `c10doc` rewrites the status/answer lines of BOTH
sections, so the second section (decision `a` itself, after `a-2`) is not
left as the claim's "the first one (in document order)" wording implies. -/
theorem C10_cex :
    updateDecisionInBody c10doc "a" "x" "answered" "T" = [
      "## Decision 1: First",
      "",
      "id: a-2",
      "status: answered",
      "answer: x",
      "",
      "## Decision 2: Second",
      "",
      "id: a",
      "status: answered",
      "answer: x"
    ] ∧ (updateDecisionInBody c10doc "a" "x" "answered" "T").drop 6 ≠ c10doc.drop 6 :=
  ⟨by decide, by decide⟩

/-- Claim C10 (amended): `updateDecisionInBody` selects targets by
substring containment on `id:` lines and rewrites EVERY matching section,
not only the first — the in-target flag is re-armed at each matching id
line; so with ids `a-2` (first) and `a`, answering `a` rewrites the
status/answer lines of both decisions, in particular of the wrong one. -/
theorem C10_substring_matching_rewrites_all (did ans st now : String)
    (pre1 : List String) (id1 : String) (reg1 : List String) (hLine : String)
    (mid : List String) (id2 : String) (reg2 : List String)
    (hpre1 : ∀ l ∈ pre1, isIdMatch did l = false)
    (hid1 : isIdMatch did id1 = true)
    (hreg1 : ∀ l ∈ reg1, isHeadingStrict l = false)
    (hh : isHeadingStrict hLine = true)
    (hmid : ∀ l ∈ mid, isIdMatch did l = false)
    (hid2 : isIdMatch did id2 = true)
    (hreg2 : ∀ l ∈ reg2, isHeadingStrict l = false) :
    updateDecisionInBody
        (pre1 ++ (id1 :: (reg1 ++ hLine :: (mid ++ (id2 :: reg2))))) did ans st now =
      pre1 ++ (id1 :: (editRegion ans st now false reg1 ++
        hLine :: (mid ++ (id2 :: editRegion ans st now false reg2)))) := by
  unfold updateDecisionInBody
  rw [bodyEditGo_append pre1 (id1 :: (reg1 ++ hLine :: (mid ++ (id2 :: reg2)))) hpre1,
    bodyEditGo_idline (reg1 ++ hLine :: (mid ++ (id2 :: reg2))) false false hid1,
    bodyEditGo_region_cont reg1 hLine (mid ++ (id2 :: reg2)) false hreg1 hh,
    bodyEditGo_append mid (id2 :: reg2) hmid,
    bodyEditGo_idline reg2 false false hid2,
    bodyEditGo_region reg2 false hreg2]

/-- Witness for claim C10 (amended): instantiated on the `a-2`/`a`
example, with both regions' rewrites evaluated. -/
theorem C10_substring_matching_rewrites_all_witness :
    updateDecisionInBody
        (["## Decision 1: First", ""] ++ ("id: a-2" ::
          (["status: pending", "answer: null", ""] ++ "## Decision 2: Second" ::
            ([""] ++ ("id: a" :: ["status: pending", "answer: null"]))))) "a" "x" "answered" "T" = [
      "## Decision 1: First",
      "",
      "id: a-2",
      "status: answered",
      "answer: x",
      "",
      "## Decision 2: Second",
      "",
      "id: a",
      "status: answered",
      "answer: x"
    ] :=
  (C10_substring_matching_rewrites_all "a" "x" "answered" "T"
    ["## Decision 1: First", ""] "id: a-2" ["status: pending", "answer: null", ""]
    "## Decision 2: Second" [""] "id: a" ["status: pending", "answer: null"]
    (by decide) (by decide) (by decide) (by decide) (by decide) (by decide)
    (by decide)).trans (by decide)

/-- A decision section of the canonical shape is well formed. -/
lemma WFSection_target {hT idL : String} {spre rest : List String}
    (hhT : isHeadingStrict hT = true)
    (hspre : ∀ l ∈ spre, isHeadingStrict l = false)
    (hidnh : isHeadingStrict idL = false)
    (hrest : ∀ l ∈ rest, isHeadingStrict l = false) :
    WFSection (hT :: (spre ++ (idL :: rest))) := by
  refine ⟨hT, spre ++ (idL :: rest), rfl, hhT, ?_⟩
  intro l hl
  rcases List.mem_append.mp hl with h | h
  · exact hspre l h
  · rcases List.mem_cons.mp h with rfl | h2
    · exact hidnh
    · exact hrest l h2

/-- Canonical one-decision document for claim C4. -/
def c4doc : List String := [
  "---",
  "id: plan-4",
  "agent: ag",
  "session: s1",
  "title: T",
  "status: pending",
  "---",
  "",
  "## Decision 1: A",
  "",
  "id: d1",
  "status: pending",
  "answer: null",
  "answered_at: null"
]

/-- Counterexample to claim C4 as stated: after `skipDecision`,
re-decoding the written document yields the decision with status
`answered` — not `skipped` — together with the sentinel answer; the
writer stamps every decision it updates `answered` (writer.ts line 423
passes the literal `'answered'`, also for skips). -/
theorem C4_cex :
    (skipDecision c4doc "/t" "d1" "T").map
        (fun f => f.decisions.map (fun d => (d.id, d.status, d.answer))) =
      some [("d1", "answered", some "__skipped__")] ∧
      ("answered" : String) ≠ "skipped" :=
  ⟨by rfl, by decide⟩

/-- Claim C4 (amended): the writer derives no `skipped` status — after
`skipDecision` on a decision, re-decoding the written document yields that
decision with status `answered` and the sentinel answer `__skipped__`;
stated for every canonical document whose unique matching `id:` line heads
the region of one well-formed target section carrying `status:` and
`answer:` lines. -/
theorem C4_skip_reencodes_answered
    (path did now : String)
    (data : List (String × String))
    (ctx0 spre reg : List String) (hT idL : String)
    (secsB secsA : List (List String)) (dIn : Decision)
    (hcanon : FMCanon data)
    (hkeys : requiredFields.all (fun k => hasKey data k) = true)
    (hfm : ∀ p ∈ data, isIdMatch did (kvLine p) = false)
    (hctxne : ctx0 ≠ [])
    (hctx : ∀ l ∈ ctx0, isHeadingStrict l = false)
    (hctxnm : ∀ l ∈ ctx0, isIdMatch did l = false)
    (hsecsB : ∀ s ∈ secsB, WFSection s)
    (hsecsBnm : ∀ s ∈ secsB, ∀ l ∈ s, isIdMatch did l = false)
    (hhT : isHeadingStrict hT = true)
    (hspre : ∀ l ∈ spre, isHeadingStrict l = false)
    (hsprenm : ∀ l ∈ spre, isIdMatch did l = false)
    (hid : isIdMatch did idL = true)
    (hreg : ∀ l ∈ reg, isHeadingStrict l = false)
    (hsecsA : ∀ s ∈ secsA, WFSection s)
    (hsecsAnm : ∀ s ∈ secsA, ∀ l ∈ s, isIdMatch did l = false)
    (hnow : trimL now.data = now.data) (hnowne : now ≠ "")
    (hnownull : now ≠ "null") (hnownl : '\n' ∉ now.data)
    (hcleanT : ∀ l ∈ hT :: (spre ++ (idL :: reg)),
      trimL l.data = l.data ∧ '\n' ∉ l.data)
    (hparse : parseDecisionSection (hT :: (spre ++ (idL :: reg))) = some dIn)
    (hregstat : reg.any (fun l => startsWithS (trimS l) "status:") = true)
    (hregans : reg.any (fun l => startsWithS (trimS l) "answer:") = true) :
    ∃ f aat,
      skipDecision
        (stringifyFM data
          (ctx0 ++ (secsB ++ (hT :: (spre ++ (idL :: reg))) :: secsA).flatten))
        path did now = some f ∧
      f.decisions =
        secsB.filterMap parseDecisionSection ++
          ({ dIn with
              status := "answered"
              answer := some "__skipped__"
              answeredAt := aat } :: secsA.filterMap parseDecisionSection) := by
  have hpipe := updateDecisionContent_pipeline path did "__skipped__" now data
    ctx0 spre reg hT idL secsB secsA hcanon hkeys hfm hctxnm hsecsBnm hhT
    hsprenm hid hreg hsecsA hsecsAnm
  obtain ⟨aat, htparse⟩ := editedTarget_parse "__skipped__" now (by decide) (by decide)
    (by decide) (by decide) hnow hnowne hnownull hnownl hT idL spre reg hcleanT hhT
    dIn hparse hregstat hregans
  have hcanon2 : FMCanon (mergeFM data
      (updateDecisionFM (decisionsOf
        (ctx0 ++ (secsB ++ (hT :: (spre ++ (idL :: reg))) :: secsA).flatten))
        did now)) :=
    mergeFM_canon hcanon (updateDecisionFM_canon _ did now hnow)
  have hkeys2 : requiredFields.all (fun k => hasKey (mergeFM data
      (updateDecisionFM (decisionsOf
        (ctx0 ++ (secsB ++ (hT :: (spre ++ (idL :: reg))) :: secsA).flatten))
        did now)) k) = true := by
    rw [List.all_eq_true] at hkeys ⊢
    intro k hk
    exact hasKey_mergeFM _ _ k (hkeys k hk)
  have hWFe : WFSection (hT :: (spre ++
      (idL :: editRegion "__skipped__" "answered" now false reg))) :=
    WFSection_target hhT hspre (idmatch_not_heading hid)
      (editRegion_noheading reg false hreg)
  have hwf2 : ∀ s ∈ secsB ++ (hT :: (spre ++
      (idL :: editRegion "__skipped__" "answered" now false reg))) :: secsA,
      WFSection s := by
    intro s hs
    rcases List.mem_append.mp hs with h | h
    · exact hsecsB s h
    · rcases List.mem_cons.mp h with rfl | h2
      · exact hWFe
      · exact hsecsA s h2
  have hdecs : decisionsOf (ctx0 ++ (secsB ++ (hT :: (spre ++
      (idL :: editRegion "__skipped__" "answered" now false reg))) :: secsA).flatten) =
      secsB.filterMap parseDecisionSection ++
        ({ dIn with
            status := "answered"
            answer := some "__skipped__"
            answeredAt := aat } :: secsA.filterMap parseDecisionSection) := by
    rw [decisionsOf_ctx ctx0 _ hctxne hctx hwf2, List.filterMap_append,
      List.filterMap_cons, htparse]
  have hout : skipDecision
      (stringifyFM data
        (ctx0 ++ (secsB ++ (hT :: (spre ++ (idL :: reg))) :: secsA).flatten))
      path did now =
      some (parsedOf (stringifyFM
        (mergeFM data (updateDecisionFM (decisionsOf
          (ctx0 ++ (secsB ++ (hT :: (spre ++ (idL :: reg))) :: secsA).flatten))
          did now))
        (ctx0 ++ (secsB ++ (hT :: (spre ++
          (idL :: editRegion "__skipped__" "answered" now false reg)))
          :: secsA).flatten)) path now) := by
    unfold skipDecision updateDecision
    rw [hpipe]
    show parseDecisionFile _ path now = _
    unfold parseDecisionFile
    rw [fmData_stringify _ hcanon2, if_pos hkeys2]
  refine ⟨_, aat, hout, ?_⟩
  rw [parsedOf_decisions, fmBody_stringify, hdecs]

/-- Witness for claim C4 (amended): the canonical one-decision document,
skipped at decision `d1`. -/
theorem C4_skip_reencodes_answered_witness :
    ∃ f aat,
      skipDecision
        (stringifyFM
          [("id", "plan-4"), ("agent", "ag"), ("session", "s1"),
            ("title", "T"), ("status", "pending")]
          ([""] ++ (([] : List (List String)) ++ ("## Decision 1: A" :: ([""] ++ ("id: d1" ::
            ["status: pending", "answer: null", "answered_at: null"]))) :: []).flatten))
        "/t" "d1" "T" = some f ∧
      f.decisions =
        ([] : List (List String)).filterMap parseDecisionSection ++
          ({ (⟨"d1", "pending", none, none, "", [], false⟩ : Decision) with
              status := "answered"
              answer := some "__skipped__"
              answeredAt := aat } ::
            ([] : List (List String)).filterMap parseDecisionSection) :=
  C4_skip_reencodes_answered "/t" "d1" "T"
    [("id", "plan-4"), ("agent", "ag"), ("session", "s1"),
      ("title", "T"), ("status", "pending")]
    [""] [""] ["status: pending", "answer: null", "answered_at: null"]
    "## Decision 1: A" "id: d1" [] []
    ⟨"d1", "pending", none, none, "", [], false⟩
    (by decide) (by decide) (by decide) (by decide) (by decide) (by decide)
    (by decide) (by decide) (by decide) (by decide) (by decide) (by decide)
    (by decide) (by decide) (by decide) (by decide) (by decide) (by decide)
    (by decide) (by decide) (by decide) (by decide) (by decide)

/-- Two decisions with overlapping ids `a` and `ab`, for claims C5/C6. -/
def c5doc : List String := [
  "---",
  "id: p1",
  "agent: ag",
  "session: s1",
  "title: T",
  "status: pending",
  "---",
  "",
  "## Decision 1: A",
  "",
  "id: a",
  "status: pending",
  "answer: null",
  "answered_at: null",
  "",
  "## Decision 2: B",
  "",
  "id: ab",
  "status: pending",
  "answer: null",
  "answered_at: null"
]

/-- Counterexample to claim C5 as stated: skipping decision `a` twice
does not give the same raw document as skipping it once — the first skip
also stamps the overlapping decision `ab` (substring id match), so the
second skip recomputes `answered = 2, remaining = 0, status = ready` where
the first wrote `answered = 1, remaining = 1, status = in_progress`. -/
theorem C5_cex :
    (skipDecisionContent c5doc "/t" "a" "T").bind
        (fun c => skipDecisionContent c "/t" "a" "T") ≠
      skipDecisionContent c5doc "/t" "a" "T" := by
  decide

/-- Claim C5 (amended): skip is idempotent once the matching id line is
unique — on a canonical document where exactly one `id:` line contains the
decisionId as a substring and the target decision's parsed id equals the
decisionId, applying `skipDecision` twice writes the same raw document as
applying it once. -/
theorem C5_skip_idempotent
    (path did now : String)
    (data : List (String × String))
    (ctx0 spre reg : List String) (hT idL : String)
    (secsB secsA : List (List String)) (dIn : Decision)
    (hcanon : FMCanon data)
    (hkeys : requiredFields.all (fun k => hasKey data k) = true)
    (hfm : ∀ p ∈ data, isIdMatch did (kvLine p) = false)
    (hctxne : ctx0 ≠ [])
    (hctx : ∀ l ∈ ctx0, isHeadingStrict l = false)
    (hctxnm : ∀ l ∈ ctx0, isIdMatch did l = false)
    (hsecsB : ∀ s ∈ secsB, WFSection s)
    (hsecsBnm : ∀ s ∈ secsB, ∀ l ∈ s, isIdMatch did l = false)
    (hhT : isHeadingStrict hT = true)
    (hspre : ∀ l ∈ spre, isHeadingStrict l = false)
    (hsprenm : ∀ l ∈ spre, isIdMatch did l = false)
    (hid : isIdMatch did idL = true)
    (hreg : ∀ l ∈ reg, isHeadingStrict l = false)
    (hsecsA : ∀ s ∈ secsA, WFSection s)
    (hsecsAnm : ∀ s ∈ secsA, ∀ l ∈ s, isIdMatch did l = false)
    (hnow : trimL now.data = now.data) (hnowne : now ≠ "")
    (hnownull : now ≠ "null") (hnownl : '\n' ∉ now.data)
    (hcleanT : ∀ l ∈ hT :: (spre ++ (idL :: reg)),
      trimL l.data = l.data ∧ '\n' ∉ l.data)
    (hparse : parseDecisionSection (hT :: (spre ++ (idL :: reg))) = some dIn)
    (hdid : dIn.id = did)
    (hregstat : reg.any (fun l => startsWithS (trimS l) "status:") = true)
    (hregans : reg.any (fun l => startsWithS (trimS l) "answer:") = true) :
    (skipDecisionContent
        (stringifyFM data
          (ctx0 ++ (secsB ++ (hT :: (spre ++ (idL :: reg))) :: secsA).flatten))
        path did now).bind
      (fun c1 => skipDecisionContent c1 path did now) =
      skipDecisionContent
        (stringifyFM data
          (ctx0 ++ (secsB ++ (hT :: (spre ++ (idL :: reg))) :: secsA).flatten))
        path did now := by
  have hpipe1 := updateDecisionContent_pipeline path did "__skipped__" now data
    ctx0 spre reg hT idL secsB secsA hcanon hkeys hfm hctxnm hsecsBnm hhT
    hsprenm hid hreg hsecsA hsecsAnm
  obtain ⟨aat, htparse⟩ := editedTarget_parse "__skipped__" now (by decide) (by decide)
    (by decide) (by decide) hnow hnowne hnownull hnownl hT idL spre reg hcleanT hhT
    dIn hparse hregstat hregans
  have hcanon2 : FMCanon (mergeFM data
      (updateDecisionFM (decisionsOf
        (ctx0 ++ (secsB ++ (hT :: (spre ++ (idL :: reg))) :: secsA).flatten))
        did now)) :=
    mergeFM_canon hcanon (updateDecisionFM_canon _ did now hnow)
  have hkeys2 : requiredFields.all (fun k => hasKey (mergeFM data
      (updateDecisionFM (decisionsOf
        (ctx0 ++ (secsB ++ (hT :: (spre ++ (idL :: reg))) :: secsA).flatten))
        did now)) k) = true := by
    rw [List.all_eq_true] at hkeys ⊢
    intro k hk
    exact hasKey_mergeFM _ _ k (hkeys k hk)
  have hfm2 := mergeFM_upd_noidmatch did data
    (decisionsOf (ctx0 ++ (secsB ++ (hT :: (spre ++ (idL :: reg))) :: secsA).flatten))
    now hfm
  have hreg2 : ∀ l ∈ editRegion "__skipped__" "answered" now false reg,
      isHeadingStrict l = false := editRegion_noheading reg false hreg
  have hpipe2 := updateDecisionContent_pipeline path did "__skipped__" now
    (mergeFM data (updateDecisionFM (decisionsOf
      (ctx0 ++ (secsB ++ (hT :: (spre ++ (idL :: reg))) :: secsA).flatten)) did now))
    ctx0 spre (editRegion "__skipped__" "answered" now false reg) hT idL secsB secsA
    hcanon2 hkeys2 hfm2 hctxnm hsecsBnm hhT hsprenm hid hreg2 hsecsA hsecsAnm
  have hwfOrig : ∀ s ∈ secsB ++ (hT :: (spre ++ (idL :: reg))) :: secsA,
      WFSection s := by
    intro s hs
    rcases List.mem_append.mp hs with h | h
    · exact hsecsB s h
    · rcases List.mem_cons.mp h with rfl | h2
      · exact WFSection_target hhT hspre (idmatch_not_heading hid) hreg
      · exact hsecsA s h2
  have hwfNew : ∀ s ∈ secsB ++ (hT :: (spre ++
      (idL :: editRegion "__skipped__" "answered" now false reg))) :: secsA,
      WFSection s := by
    intro s hs
    rcases List.mem_append.mp hs with h | h
    · exact hsecsB s h
    · rcases List.mem_cons.mp h with rfl | h2
      · exact WFSection_target hhT hspre (idmatch_not_heading hid) hreg2
      · exact hsecsA s h2
  have hdecsOrig : decisionsOf
      (ctx0 ++ (secsB ++ (hT :: (spre ++ (idL :: reg))) :: secsA).flatten) =
      secsB.filterMap parseDecisionSection ++
        (dIn :: secsA.filterMap parseDecisionSection) := by
    rw [decisionsOf_ctx ctx0 _ hctxne hctx hwfOrig, List.filterMap_append,
      List.filterMap_cons, hparse]
  have hdecsNew : decisionsOf (ctx0 ++ (secsB ++ (hT :: (spre ++
      (idL :: editRegion "__skipped__" "answered" now false reg))) :: secsA).flatten) =
      secsB.filterMap parseDecisionSection ++
        ({ dIn with
            status := "answered"
            answer := some "__skipped__"
            answeredAt := aat } :: secsA.filterMap parseDecisionSection) := by
    rw [decisionsOf_ctx ctx0 _ hctxne hctx hwfNew, List.filterMap_append,
      List.filterMap_cons, htparse]
  have hlen : (decisionsOf (ctx0 ++ (secsB ++ (hT :: (spre ++
      (idL :: editRegion "__skipped__" "answered" now false reg))) :: secsA).flatten)).length =
      (decisionsOf
        (ctx0 ++ (secsB ++ (hT :: (spre ++ (idL :: reg))) :: secsA).flatten)).length := by
    rw [hdecsNew, hdecsOrig]
    simp
  have hcnt : answeredCountAfter
      (decisionsOf (ctx0 ++ (secsB ++ (hT :: (spre ++
        (idL :: editRegion "__skipped__" "answered" now false reg))) :: secsA).flatten))
      did =
      answeredCountAfter
        (decisionsOf
          (ctx0 ++ (secsB ++ (hT :: (spre ++ (idL :: reg))) :: secsA).flatten)) did := by
    unfold answeredCountAfter
    rw [hdecsNew, hdecsOrig, List.filter_append, List.filter_append,
      List.filter_cons, List.filter_cons]
    simp [hdid]
  have hupd : updateDecisionFM
      (decisionsOf (ctx0 ++ (secsB ++ (hT :: (spre ++
        (idL :: editRegion "__skipped__" "answered" now false reg))) :: secsA).flatten))
      did now =
      updateDecisionFM
        (decisionsOf
          (ctx0 ++ (secsB ++ (hT :: (spre ++ (idL :: reg))) :: secsA).flatten))
        did now := by
    unfold updateDecisionFM
    rw [hcnt, hlen]
  have hmi : mergeFM
      (mergeFM data (updateDecisionFM (decisionsOf
        (ctx0 ++ (secsB ++ (hT :: (spre ++ (idL :: reg))) :: secsA).flatten)) did now))
      (updateDecisionFM (decisionsOf
        (ctx0 ++ (secsB ++ (hT :: (spre ++ (idL :: reg))) :: secsA).flatten)) did now) =
      mergeFM data (updateDecisionFM (decisionsOf
        (ctx0 ++ (secsB ++ (hT :: (spre ++ (idL :: reg))) :: secsA).flatten)) did now) :=
    mergeFM_idem data _ (by rw [upd_keys]; decide)
  have hidem := @editRegion_idem "__skipped__" "answered" now reg false
  unfold skipDecisionContent
  rw [hpipe1]
  show skipDecisionContent _ path did now = _
  unfold skipDecisionContent
  rw [hpipe2, hidem, hupd, hmi]

/-- Witness for claim C5 (amended): skipping `d1` twice on the canonical
one-decision document equals skipping it once. -/
theorem C5_skip_idempotent_witness :
    (skipDecisionContent
        (stringifyFM
          [("id", "plan-4"), ("agent", "ag"), ("session", "s1"),
            ("title", "T"), ("status", "pending")]
          ([""] ++ (([] : List (List String)) ++ ("## Decision 1: A" :: ([""] ++ ("id: d1" ::
            ["status: pending", "answer: null", "answered_at: null"]))) :: []).flatten))
        "/t" "d1" "T").bind
      (fun c1 => skipDecisionContent c1 "/t" "d1" "T") =
      skipDecisionContent
        (stringifyFM
          [("id", "plan-4"), ("agent", "ag"), ("session", "s1"),
            ("title", "T"), ("status", "pending")]
          ([""] ++ (([] : List (List String)) ++ ("## Decision 1: A" :: ([""] ++ ("id: d1" ::
            ["status: pending", "answer: null", "answered_at: null"]))) :: []).flatten))
        "/t" "d1" "T" :=
  C5_skip_idempotent "/t" "d1" "T"
    [("id", "plan-4"), ("agent", "ag"), ("session", "s1"),
      ("title", "T"), ("status", "pending")]
    [""] [""] ["status: pending", "answer: null", "answered_at: null"]
    "## Decision 1: A" "id: d1" [] []
    ⟨"d1", "pending", none, none, "", [], false⟩
    (by decide) (by decide) (by decide) (by decide) (by decide) (by decide)
    (by decide) (by decide) (by decide) (by decide) (by decide) (by decide)
    (by decide) (by decide) (by decide) (by decide) (by decide) (by decide)
    (by decide) (by decide) (by decide) (by decide) (by decide) (by decide)

/-- The same overlapping-id document under `answerDecision`, for C6. -/
def c6doc : List String := [
  "---",
  "id: p1",
  "agent: ag",
  "session: s1",
  "title: T",
  "status: pending",
  "---",
  "",
  "## Decision 1: A",
  "",
  "id: a",
  "status: pending",
  "answer: null",
  "answered_at: null",
  "",
  "## Decision 2: B",
  "",
  "id: ab",
  "status: pending",
  "answer: null",
  "answered_at: null"
]

/-- The writer's four-key update binds no other key. -/
lemma lookupRaw_upd_none (decisions : List Decision) (did now k : String)
    (h1 : k ≠ "status") (h2 : k ≠ "answered") (h3 : k ≠ "remaining")
    (h4 : k ≠ "updated_at") :
    lookupRaw (updateDecisionFM decisions did now) k = none := by
  unfold updateDecisionFM lookupRaw
  rw [List.find?_cons_of_neg _ (by simp [Ne.symm h1]),
    List.find?_cons_of_neg _ (by simp [Ne.symm h2]),
    List.find?_cons_of_neg _ (by simp [Ne.symm h3]),
    List.find?_cons_of_neg _ (by simp [Ne.symm h4])]
  rfl

/-- Counterexample to claim C6 as stated: encode is not frame-preserving
for every well-formed document — answering decision `a` also rewrites the
section of decision `ab` (substring id match), so a non-targeted decision
section is not byte-identical: the edited document contains two
`status: answered` lines where the original contained none. -/
theorem C6_cex :
    (updateDecisionContent c6doc "/t" "a" "x" "T").map
        (fun c => (c.filter (fun l => l = "status: answered")).length) = some 2 ∧
      (c6doc.filter (fun l => l = "status: answered")).length = 0 := by
  refine ⟨by rfl, by decide⟩

/-- Claim C6 (amended): encode is frame-preserving once the matching id
line is unique — the written document is byte-identical to the original
outside the matched region (same front-matter block shape, same context,
same other sections), the merged front matter binds every key other than
`status`, `answered`, `remaining`, `updated_at` to its original value, and
every line of the rewritten region is an original line or one of the three
written key lines. -/
theorem C6_frame_preserving_encode
    (path did ans now : String)
    (data : List (String × String))
    (ctx0 spre reg : List String) (hT idL : String)
    (secsB secsA : List (List String))
    (hcanon : FMCanon data)
    (hkeys : requiredFields.all (fun k => hasKey data k) = true)
    (hfm : ∀ p ∈ data, isIdMatch did (kvLine p) = false)
    (hctxnm : ∀ l ∈ ctx0, isIdMatch did l = false)
    (hsecsBnm : ∀ s ∈ secsB, ∀ l ∈ s, isIdMatch did l = false)
    (hhT : isHeadingStrict hT = true)
    (hsprenm : ∀ l ∈ spre, isIdMatch did l = false)
    (hid : isIdMatch did idL = true)
    (hreg : ∀ l ∈ reg, isHeadingStrict l = false)
    (hsecsA : ∀ s ∈ secsA, WFSection s)
    (hsecsAnm : ∀ s ∈ secsA, ∀ l ∈ s, isIdMatch did l = false) :
    updateDecisionContent
        (stringifyFM data
          (ctx0 ++ (secsB ++ (hT :: (spre ++ (idL :: reg))) :: secsA).flatten))
        path did ans now =
      some (stringifyFM
        (mergeFM data (updateDecisionFM
          (decisionsOf
            (ctx0 ++ (secsB ++ (hT :: (spre ++ (idL :: reg))) :: secsA).flatten))
          did now))
        (ctx0 ++ (secsB ++
          (hT :: (spre ++ (idL :: editRegion ans "answered" now false reg)))
            :: secsA).flatten)) ∧
    (∀ k, k ≠ "status" → k ≠ "answered" → k ≠ "remaining" → k ≠ "updated_at" →
      lookupRaw (mergeFM data (updateDecisionFM
        (decisionsOf
          (ctx0 ++ (secsB ++ (hT :: (spre ++ (idL :: reg))) :: secsA).flatten))
        did now)) k = lookupRaw data k) ∧
    (∀ l ∈ editRegion ans "answered" now false reg,
      l ∈ reg ∨ l = "status: " ++ "answered" ∨ l = "answer: " ++ ans ∨
        l = "answered_at: " ++ now) := by
  refine ⟨?_, ?_, ?_⟩
  · exact updateDecisionContent_pipeline path did ans now data ctx0 spre reg hT idL
      secsB secsA hcanon hkeys hfm hctxnm hsecsBnm hhT hsprenm hid hreg hsecsA hsecsAnm
  · intro k h1 h2 h3 h4
    exact lookupRaw_mergeFM_frame data (lookupRaw_upd_none _ did now k h1 h2 h3 h4)
  · exact editRegion_mem reg false

/-- Witness for claim C6 (amended): answering `d1` with `x` in the
canonical one-decision document; the written bytes evaluated, and the
untouched `id` key read back. -/
theorem C6_frame_preserving_encode_witness :
    updateDecisionContent
        (stringifyFM
          [("id", "plan-4"), ("agent", "ag"), ("session", "s1"),
            ("title", "T"), ("status", "pending")]
          ([""] ++ (([] : List (List String)) ++ ("## Decision 1: A" :: ([""] ++ ("id: d1" ::
            ["status: pending", "answer: null", "answered_at: null"]))) :: []).flatten))
        "/t" "d1" "x" "T" =
      some ["---", "id: plan-4", "agent: ag", "session: s1", "title: T",
        "status: ready", "answered: 1", "remaining: 0", "updated_at: T",
        "---", "", "## Decision 1: A", "",
        "id: d1", "status: answered", "answer: x", "answered_at: T"] ∧
    lookupRaw
      (mergeFM
        [("id", "plan-4"), ("agent", "ag"), ("session", "s1"),
          ("title", "T"), ("status", "pending")]
        (updateDecisionFM
          (decisionsOf
            ([""] ++ (([] : List (List String)) ++ ("## Decision 1: A" :: ([""] ++ ("id: d1" ::
              ["status: pending", "answer: null", "answered_at: null"]))) :: []).flatten))
          "d1" "T")) "id" = some "plan-4" := by
  have h := C6_frame_preserving_encode "/t" "d1" "x" "T"
    [("id", "plan-4"), ("agent", "ag"), ("session", "s1"),
      ("title", "T"), ("status", "pending")]
    [""] [""] ["status: pending", "answer: null", "answered_at: null"]
    "## Decision 1: A" "id: d1" [] []
    (by decide) (by decide) (by decide) (by decide) (by decide) (by decide)
    (by decide) (by decide) (by decide) (by decide) (by decide)
  refine ⟨h.1.trans (by decide), ?_⟩
  rw [h.2.1 "id" (by decide) (by decide) (by decide) (by decide)]
  decide

end Zebu
